import Mathlib

/-!
Formal model of the roi-mailchimp-reporter backend (`src-tauri/src/lib.rs`).

The Rust source is shallowly embedded: pure computations become Lean
functions, `serde_json::Value` becomes the `Json`
inductive below, fallible code returns `Option`/`Except`, and the
effectful collaborators of `generate_report` (the settings loader, the
two HTTP endpoints, the wall clock and the report store) are supplied as
an explicit environment record.  File contents are modelled at the JSON
tree level: `serde_json::to_string_pretty` followed by `from_str` is the
identity on the tree, so a settings/reports file is an `Option Json`.

The `f64` arithmetic of the progress computation (line 572 of the source:
`40 + ((index as f64) * (40.0 / len)) as u8`) is modelled bit-exactly:
`f64OfRat` rounds a positive rational to the nearest binary64 value (53-bit
mantissa, round half to even), `round53` rounds the integer product of the
index and the increment mantissa the same way, and `mulTrunc` performs the
truncating cast, all in integer arithmetic.  The quotients are well inside
the normal range, so overflow, subnormals and signs never arise.  The
remaining `f64` quantities - the CTR `clicks/opens*100.0` and the time
remaining estimate - are kept as exact rationals: the claims about them
(C1, C9) state the real-number formula and the fixed six-decimal rendering,
for which the exact rational is the faithful reading; no claim depends on
their rounding.  `as u8` / `as u64` casts of non-negative values become
`Nat.floor`, `.ceil()` becomes `Nat.ceil`.
-/

/-- Model of `serde_json::Value`.  Numbers are modelled as rationals. -/
inductive Json where
  | null
  | bool (b : Bool)
  | num (q : ℚ)
  | str (s : String)
  | arr (elems : List Json)
  | obj (fields : List (String × Json))

/-- Model of `Value::get(key)`: field lookup on objects, `None` otherwise. -/
def Json.get (j : Json) (key : String) : Option Json :=
  match j with
  | .obj fields => fields.lookup key
  | _ => none

/-- Model of `Value::as_str`. -/
def Json.asStr (j : Json) : Option String :=
  match j with
  | .str s => some s
  | _ => none

/-- Model of `Value::as_bool`. -/
def Json.asBool (j : Json) : Option Bool :=
  match j with
  | .bool b => some b
  | _ => none

/-- Model of `Value::as_array`. -/
def Json.asArr (j : Json) : Option (List Json) :=
  match j with
  | .arr xs => some xs
  | _ => none

/-- Model of `Value::as_u64`: defined on non-negative integral numbers. -/
def Json.asNat (j : Json) : Option ℕ :=
  match j with
  | .num q => if q.den = 1 ∧ 0 ≤ q.num then some q.num.toNat else none
  | _ => none

/-- Model of `Value::as_f64`: any JSON number, read exactly. -/
def Json.asRat (j : Json) : Option ℚ :=
  match j with
  | .num q => some q
  | _ => none

/-- The `Settings` struct of `lib.rs`. -/
structure Settings where
  mailchimp_api_key : String
  mailchimp_audience_id : String
  advertisers : List String
  download_directory : String
deriving DecidableEq

/-- The default audience id hard-coded in `load_settings`. -/
def defaultAudienceId : String := "6732b2b110"

/-- The built-in advertiser list returned when no settings file exists. -/
def defaultAdvertisers : List String :=
  ["HBCB (Horizon Blue Cross Blue Shield)", "NJUA", "NJ American Water",
   "EisnerAmper", "Gibbons Law", "Valley Health Systems", "Withum", "Grassi",
   "ACG", "Local 825", "Mizuho", "Caucus", "MSU", "Jersey City Summit",
   "NJ Bankers"]

/-- Default `Settings` built by `load_settings` when the file is absent;
`osDir` stands for the OS-reported downloads directory (with the
`<home>/Downloads` fallback already resolved). -/
def defaultSettings (osDir : String) : Settings :=
  ⟨"", defaultAudienceId, defaultAdvertisers, osDir⟩

/-- Strict serde decode of a `Vec<String>`: every element must be a string. -/
def decodeStrList : List Json → Option (List String)
  | [] => some []
  | j :: rest =>
    match j.asStr with
    | some s => (decodeStrList rest).map (fun l => s :: l)
    | none => none

/-- Strict serde decode of the `Settings` document
(`serde_json::from_str::<Settings>`): all four fields must be present with
the right types; unknown fields are ignored. -/
def decodeSettingsStrict (j : Json) : Option Settings :=
  match (j.get "mailchimp_api_key").bind Json.asStr with
  | none => none
  | some key =>
    match (j.get "mailchimp_audience_id").bind Json.asStr with
    | none => none
    | some aud =>
      match (j.get "advertisers").bind Json.asArr with
      | none => none
      | some advJ =>
        match decodeStrList advJ with
        | none => none
        | some adv =>
          match (j.get "download_directory").bind Json.asStr with
          | none => none
          | some dir => some ⟨key, aud, adv, dir⟩

/-- Serialization of `Settings` (`serde_json::to_string_pretty`), at the
JSON-tree level. -/
def encodeSettings (s : Settings) : Json :=
  .obj [("mailchimp_api_key", .str s.mailchimp_api_key),
        ("mailchimp_audience_id", .str s.mailchimp_audience_id),
        ("advertisers", .arr (s.advertisers.map Json.str)),
        ("download_directory", .str s.download_directory)]

/-- The fallback path of `load_settings` (lines 139-172): when the strict
decode fails, re-read the untyped tree field by field.  The api key is
taken from the tree when present as a string; the audience id is always
reset to the default; the advertisers are the string elements of the
`advertisers` array (empty when absent or not an array); the download
directory is always the OS default. -/
def fallbackSettings (osDir : String) (j : Json) : Settings :=
  { mailchimp_api_key := (((j.get "mailchimp_api_key").bind Json.asStr).getD "")
  , mailchimp_audience_id := defaultAudienceId
  , advertisers :=
      (((j.get "advertisers").bind Json.asArr).map
        (fun arr => arr.filterMap Json.asStr)).getD []
  , download_directory := osDir }

/-- The `load_settings` command.  The settings file is given as an
`Option Json` (absent, or its parsed JSON tree); `osDir` is the resolved
OS downloads directory.  I/O failures (unreadable file, unresolvable
directory, non-JSON text) are outside this model. -/
def load_settings (osDir : String) (file : Option Json) : Settings :=
  match file with
  | none => defaultSettings osDir
  | some j =>
    let s :=
      match decodeSettingsStrict j with
      | some s => s
      | none => fallbackSettings osDir j
    if s.download_directory = "" then { s with download_directory := osDir }
    else s

/-- The `save_settings` command: the new content of the settings file.
The write-back verification in the source only logs and never alters the
stored document. -/
def save_settings (s : Settings) : Option Json :=
  some (encodeSettings s)

/-- Model of Rust `str::split(sep)` on the character list of a string.
Rust `split` always yields at least one piece, so the result is never the
empty list. -/
def splitOnChar (sep : Char) : List Char → List (List Char)
  | [] => [[]]
  | c :: cs =>
    if c = sep then [] :: splitOnChar sep cs
    else
      match splitOnChar sep cs with
      | [] => [[c]]
      | h :: t => (c :: h) :: t

/-- The data-center tag of `generate_report` (line 443):
`api_key.split('-').last().unwrap_or("us1")`. -/
def dcOf (key : List Char) : List Char :=
  ((splitOnChar '-' key).getLast?).getD ("us1".data)

/-- String-level wrapper of `dcOf`. -/
def dcString (key : String) : String :=
  String.mk (dcOf key.data)

/-- The Mailchimp base URL built by `generate_report` (line 444). -/
def base_url (key : String) : String :=
  "https://" ++ dcString key ++ ".api.mailchimp.com/3.0"

/-- Rust `str::contains(&str)`: substring containment, at the character
level (valid for UTF-8 since the encoding is self-synchronizing). -/
def strContains (hay needle : String) : Bool :=
  decide (needle.data <:+: hay.data)

/-- Rust `str::starts_with(&str)`, at the character level. -/
def strStartsWith (s p : String) : Bool :=
  decide (p.data <+: s.data)

/-- Rust `str::to_lowercase` (restricted to the one-to-one case mappings,
which cover the ASCII titles and keywords this program compares). -/
def strToLower (s : String) : String :=
  String.mk (s.data.map Char.toLower)

/-- One iteration of the loop in `validate_tracking_urls` (lines 333-350):
`none` when the url is accepted, `some msg` with the error otherwise.
`parseOk` stands for the external `url::Url::parse` succeeding. -/
def checkTrackingUrl (parseOk : String → Bool) (url : String) :
    Option String :=
  if url = "" then none
  else if strStartsWith url "http://" || strStartsWith url "https://" then
    if parseOk url then none
    else some ("Invalid tracking URL format: " ++ url)
  else if url.data.any Char.isWhitespace || url.data.contains '<' ||
      url.data.contains '>'
  then some ("Invalid tracking URL or path component: " ++ url)
  else none

/-- The `validate_tracking_urls` function (lines 328-352). -/
def validate_tracking_urls (parseOk : String → Bool) (urls : List String) :
    Except String Unit :=
  if urls.isEmpty then Except.error "No tracking URLs provided"
  else
    match urls.findSome? (checkTrackingUrl parseOk) with
    | some e => Except.error e
    | none => Except.ok ()

/-- Title lookup `campaign.settings.title` used by the validator and the
filter (lines 363-364, 529-530). -/
def campaignTitle (c : Json) : Option String :=
  (c.get "settings").bind (fun s => (s.get "title").bind Json.asStr)

/-- The type-keyword matching rule on lowercased strings (lines 367-371). -/
def titleMatchesLower (ntLower titleLower : String) : Bool :=
  if ntLower = "hc" then
    strContains titleLower "hc" || strContains titleLower "health care"
  else strContains titleLower ntLower

/-- A campaign matches the newsletter type when its title exists and
satisfies the keyword rule; campaigns without a title never match. -/
def campaignMatches (newsletterType : String) (c : Json) : Bool :=
  match campaignTitle c with
  | some t => titleMatchesLower (strToLower newsletterType) (strToLower t)
  | none => false

/-- The `validate_campaign_data` function (lines 354-388). -/
def validate_campaign_data (campaigns : List Json)
    (newsletterType : String) : Except String Unit :=
  if campaigns.isEmpty then
    Except.error "No campaigns found for the specified date range"
  else if campaigns.countP (campaignMatches newsletterType) = 0 then
    Except.error
      ("No campaigns found matching the newsletter type \x27" ++
       newsletterType ++
       "\x27. Please check if the newsletter type is correct.")
  else Except.ok ()

/-- Gregorian leap-year rule (chrono). -/
def isLeapYear (y : ℕ) : Bool :=
  (y % 4 = 0 && y % 100 ≠ 0) || y % 400 = 0

/-- Days in a month (chrono). -/
def daysInMonth (y m : ℕ) : ℕ :=
  if m = 2 then (if isLeapYear y then 29 else 28)
  else if m = 4 ∨ m = 6 ∨ m = 9 ∨ m = 11 then 30
  else 31

/-- A calendar date as year, month, day. -/
structure Date where
  year : ℕ
  month : ℕ
  day : ℕ
deriving DecidableEq

/-- Predicate for a non-empty all-digit character group. -/
def allDigits (cs : List Char) : Bool :=
  !cs.isEmpty && cs.all Char.isDigit

/-- Numeric value of a decimal digit group. -/
def digitsToNat (cs : List Char) : ℕ :=
  cs.foldl (fun n c => n * 10 + (c.toNat - 48)) 0

/-- Modelled from the external chrono crate, per the spec rule that the
end date is strictly parsed as `YYYY-MM-DD`
(`NaiveDate::parse_from_str(s, "%Y-%m-%d")`): three dash-separated
zero-padded digit groups forming a valid calendar date. -/
def parseDateYMD (s : String) : Option Date :=
  match splitOnChar '-' s.data with
  | [ys, ms, ds] =>
    if allDigits ys ∧ allDigits ms ∧ allDigits ds ∧
       ys.length = 4 ∧ ms.length = 2 ∧ ds.length = 2 then
      let y := digitsToNat ys
      let m := digitsToNat ms
      let d := digitsToNat ds
      if 1 ≤ m ∧ m ≤ 12 ∧ 1 ≤ d ∧ d ≤ daysInMonth y m then
        some ⟨y, m, d⟩
      else none
    else none
  | _ => none

/-- Left-pad a numeral with zeros to the given width. -/
def padZeros (width n : ℕ) : String :=
  let s := toString n
  String.mk (List.replicate (width - s.length) '0') ++ s

/-- Display of a `chrono::NaiveDate` (`%Y-%m-%d`, zero padded). -/
def formatDate (d : Date) : String :=
  padZeros 4 d.year ++ "-" ++ padZeros 2 d.month ++ "-" ++ padZeros 2 d.day

/-- Modelled from the external chrono crate:
`DateTime::parse_from_rfc3339(send_time)` followed by formatting with
`%Y-%m-%d` (lines 623-626).  An RFC-3339 timestamp is a valid calendar
date, a literal `T` and a non-empty time-with-offset part; the formatted
result is the date part verbatim (the parser accepts exactly its
zero-padded `%Y-%m-%d` rendering). -/
def parseRfc3339Date (s : String) : Option String :=
  match splitOnChar 'T' s.data with
  | [d, t] =>
    match parseDateYMD (String.mk d) with
    | some _ => if t.isEmpty then none else some (String.mk d)
    | none => none
  | _ => none

/-- Round a rational to the nearest integer, ties to even (the rounding of
Rust float formatting; for actual `f64` inputs ties cannot occur). -/
def roundHalfEven (x : ℚ) : ℤ :=
  let f := ⌊x⌋
  let r := x - f
  if r < 1 / 2 then f
  else if 1 / 2 < r then f + 1
  else if f % 2 = 0 then f else f + 1

/-- Rust `format!("{:.6}", x)`: fixed-point rendering with six fractional
digits. -/
def formatFixed6 (q : ℚ) : String :=
  let n := roundHalfEven (q * 1000000)
  let a := n.natAbs
  (if n < 0 then "-" else "") ++
    toString (a / 1000000) ++ "." ++ padZeros 6 (a % 1000000)

/-- A metric flag as read by the exporters:
`metrics.get(name).and_then(as_bool).unwrap_or(false)`. -/
def metricFlag (metrics : Json) (name : String) : Bool :=
  ((metrics.get name).bind Json.asBool).getD false

/-- The CSV header fields built by `download_csv` (lines 1077-1092) and
`open_report_in_excel` (lines 801-816): `Date` always first, then one
column per enabled metric flag, in this fixed order. -/
def headerFields (metrics : Json) : List String :=
  ["Date"] ++
  (if metricFlag metrics "unique_opens" then ["Unique Opens"] else []) ++
  (if metricFlag metrics "total_opens" then ["Total Opens"] else []) ++
  (if metricFlag metrics "total_recipients" then ["Total Recipients"] else []) ++
  (if metricFlag metrics "total_clicks" then ["Total Clicks"] else []) ++
  (if metricFlag metrics "ctr" then ["CTR"] else [])

/-- An integer CSV cell:
`entry.get(key).and_then(as_u64).unwrap_or(0).to_string()`. -/
def natCell (entry : Json) (key : String) : String :=
  toString (((entry.get key).bind Json.asNat).getD 0)

/-- The CTR CSV cell:
`format!("{:.6}", entry.get("ctr").and_then(as_f64).unwrap_or(0.0))`. -/
def ctrCell (entry : Json) : String :=
  formatFixed6 (((entry.get "ctr").bind Json.asRat).getD 0)

/-- One CSV data row (lines 1100-1117 and 873-890): the send date
(`"N/A"` when absent) followed by the cells of the enabled metrics. -/
def rowFields (metrics entry : Json) : List String :=
  [((entry.get "send_date").bind Json.asStr).getD "N/A"] ++
  (if metricFlag metrics "unique_opens" then [natCell entry "unique_opens"] else []) ++
  (if metricFlag metrics "total_opens" then [natCell entry "total_opens"] else []) ++
  (if metricFlag metrics "total_recipients" then [natCell entry "total_recipients"] else []) ++
  (if metricFlag metrics "total_clicks" then [natCell entry "total_clicks"] else []) ++
  (if metricFlag metrics "ctr" then [ctrCell entry] else [])

/-- The full CSV text: header line, then one line per entry of
`data.report_data` in stored order, or the fallback line when
`report_data` is absent or not an array. -/
def csvText (metrics : Json) (reportData : Option (List Json)) : String :=
  String.intercalate "," (headerFields metrics) ++ "\n" ++
  match reportData with
  | some entries =>
    String.join (entries.map
      (fun e => String.intercalate "," (rowFields metrics e) ++ "\n"))
  | none => "No campaign data found\n"

/-- The CSV content produced by the `download_csv` command for a stored
report document (its file-name construction and file write are outside
this model; `open_report_in_excel` builds the identical content). -/
def download_csv (reportData : Json) : Except String String :=
  match reportData.get "data" with
  | none => Except.error "Invalid report format: missing data field"
  | some data =>
    match data.get "metrics" with
    | none => Except.error "Invalid report format: missing metrics"
    | some metrics =>
      Except.ok (csvText metrics ((data.get "report_data").bind Json.asArr))

/-- The `Metrics` struct (five selection booleans). -/
structure Metrics where
  unique_opens : Bool
  total_opens : Bool
  total_recipients : Bool
  total_clicks : Bool
  ctr : Bool
deriving DecidableEq

/-- The `DateRange` struct. -/
structure DateRange where
  start_date : String
  end_date : String
deriving DecidableEq

/-- The `ReportRequest` struct. -/
structure ReportRequest where
  newsletter_type : String
  advertiser : String
  tracking_urls : List String
  date_range : DateRange
  metrics : Metrics

/-- The `ProgressUpdate` struct; `progress` is a `u8` percentage. -/
structure ProgressUpdate where
  stage : String
  progress : ℕ
  message : String
  time_remaining : Option ℕ
deriving DecidableEq

/-- One row of `report_data` as assembled in the processing loop
(lines 675-682); `ctr` is the exact rational value of the `f64`. -/
structure ReportEntry where
  send_date : String
  unique_opens : ℕ
  total_opens : ℕ
  total_recipients : ℕ
  total_clicks : ℕ
  ctr : ℚ
deriving DecidableEq

/-- The final report document `{ campaigns, report_data, metrics }`. -/
structure FinalReport where
  campaigns : List Json
  report_data : List ReportEntry
  metrics : Metrics

/-- The `ReportResponse` struct. -/
structure ReportResponse where
  success : Bool
  message : String
  data : Option FinalReport
  progress_updates : List ProgressUpdate

/-- The `SavedReport` struct (with the typed final document as payload). -/
structure SavedReport where
  id : String
  name : String
  advertiser : String
  report_type : String
  date_range : DateRange
  created : String
  data : FinalReport
  metrics : Metrics

/-- Outcome of one HTTP GET: transport failure, non-2xx with body text, or
2xx with the parsed JSON body (`none` for a malformed body). -/
inductive HttpOutcome where
  | netErr (msg : String)
  | httpErr (body : String)
  | ok (body : Option Json)

/-- Environment of one `generate_report` run: the settings loader, the
external `url` parser, the two HTTP endpoints, the wall clock and the
report store, each as an oracle. -/
structure Env where
  loadSettings : Except String Settings
  urlParseOk : String → Bool
  campaignsHttp : HttpOutcome
  clickHttp : String → HttpOutcome
  elapsedAt : ℕ → ℚ
  saveResult : Except String Unit
  nowMillis : ℤ
  todayStr : String

/-- Everything one run produces: the command result, the emitted progress
updates (in order), the URLs of campaign-list GETs, and the payload of the
`report-generated` event when one was emitted. -/
structure GenOutput where
  result : Except String ReportResponse
  updates : List ProgressUpdate
  fetchedUrls : List String
  generatedEvent : Option SavedReport

/-- The `Initializing` update (lines 400-405). -/
def initializingUpdate : ProgressUpdate :=
  ⟨"Initializing", 0, "Starting report generation...", none⟩

/-- The first `FetchingCampaigns` update (lines 428-433). -/
def connectingUpdate : ProgressUpdate :=
  ⟨"FetchingCampaigns", 10, "Connecting to Mailchimp API...", none⟩

/-- The second `FetchingCampaigns` update (lines 460-465). -/
def fetchingUpdate : ProgressUpdate :=
  ⟨"FetchingCampaigns", 20, "Fetching campaign data from Mailchimp...", none⟩

/-- The `FilteringCampaigns` update (lines 511-516). -/
def filteringUpdate (total : ℕ) : ProgressUpdate :=
  ⟨"FilteringCampaigns", 30,
   "Found " ++ toString total ++ " campaigns. Filtering by newsletter type...",
   none⟩

/-- The initial per-run estimate `(len as f64 * 0.5) as u64` (line 552). -/
def initialEstimate (n : ℕ) : ℕ :=
  ⌊(n : ℚ) * (1 / 2)⌋₊

/-- The `ProcessingCampaigns` update at 40% (lines 548-553). -/
def initialProcessingUpdate (n : ℕ) : ProgressUpdate :=
  ⟨"ProcessingCampaigns", 40,
   "Processing " ++ toString n ++ " campaigns...",
   some (initialEstimate n)⟩

/-- The `FinalizingReport` update (lines 702-707). -/
def finalizingUpdate : ProgressUpdate :=
  ⟨"FinalizingReport", 80,
   "Processing complete. Organizing report data...", some 15⟩

/-- The `SavingReport` update (lines 733-738). -/
def savingUpdate : ProgressUpdate :=
  ⟨"SavingReport", 90, "Finalizing and saving report...", some 5⟩

/-- The `Complete` update (lines 769-774). -/
def completeUpdate : ProgressUpdate :=
  ⟨"Complete", 100, "Report generation complete!", some 0⟩

/-- Bit length of a natural number (`⌈log2 (n+1)⌉`), written with an
explicit fuel argument so that it is structurally recursive. -/
def bitlenAux : ℕ → ℕ → ℕ
  | 0, _ => 0
  | fuel + 1, n => if n = 0 then 0 else bitlenAux fuel (n / 2) + 1

/-- Bit length: `2 ^ (natBits n - 1) ≤ n < 2 ^ natBits n` for `n ≠ 0`. -/
def natBits (n : ℕ) : ℕ :=
  bitlenAux n n

/-- Whether `2 ^ g ≤ a / b`, by integer comparison. -/
def pow2LeRat (a b : ℕ) (g : ℤ) : Bool :=
  if 0 ≤ g then b * 2 ^ g.toNat ≤ a else b ≤ a * 2 ^ (-g).toNat

/-- `⌊log2 (a / b)⌋` of a positive rational, via bit lengths. -/
def ratLog2 (a b : ℕ) : ℤ :=
  if pow2LeRat a b ((natBits a : ℤ) - (natBits b : ℤ)) then
    (natBits a : ℤ) - (natBits b : ℤ)
  else (natBits a : ℤ) - (natBits b : ℤ) - 1

/-- Integer round-to-nearest of `p / q`, ties to even (the IEEE-754
rounding used by every binary64 operation). -/
def rhedNat (p q : ℕ) : ℕ :=
  if 2 * (p % q) < q then p / q
  else if q < 2 * (p % q) then p / q + 1
  else if p / q % 2 = 0 then p / q else p / q + 1

/-- The binary64 nearest to `a / b` (positive, normal range), as a
mantissa in `[2^52, 2^53]` times a power of two.  Subnormal and overflow
exponents never arise from the quantities this program computes. -/
def f64OfRat (a b : ℕ) : ℕ × ℤ :=
  if a = 0 then (0, 0)
  else if 0 ≤ ratLog2 a b - 52 then
    (rhedNat a (b * 2 ^ (ratLog2 a b - 52).toNat), ratLog2 a b - 52)
  else
    (rhedNat (a * 2 ^ (52 - ratLog2 a b).toNat) b, ratLog2 a b - 52)

/-- Round a natural number to 53 significant bits (round to nearest, ties
to even), as mantissa times `2 ^ shift`: the rounding a binary64 multiply
applies to an exact integer product. -/
def round53 (p : ℕ) : ℕ × ℕ :=
  if natBits p ≤ 53 then (p, 0)
  else (rhedNat p (2 ^ (natBits p - 53)), natBits p - 53)

/-- `((index as f64) * increment) as u8` (line 572) for an exact index
and a binary64 increment `m · 2^e`: the exact product `index · m` is
rounded to 53 bits (the binary64 multiplication), then the cast truncates
toward zero.  `index as f64` is exact for every reachable index
(`index < 2^53`). -/
def mulTrunc (i : ℕ) (inc : ℕ × ℤ) : ℕ :=
  if 0 ≤ inc.2 + ((round53 (i * inc.1)).2 : ℤ) then
    (round53 (i * inc.1)).1 * 2 ^ (inc.2 + ((round53 (i * inc.1)).2 : ℤ)).toNat
  else
    (round53 (i * inc.1)).1 / 2 ^ (-(inc.2 + ((round53 (i * inc.1)).2 : ℤ))).toNat

/-- The rational value of a mantissa-exponent pair. -/
def dyadicVal (me : ℕ × ℤ) : ℚ :=
  (me.1 : ℚ) * (2 : ℚ) ^ me.2

/-- The rational value of a 53-bit rounded integer. -/
def val53 (p : ℕ) : ℚ :=
  ((round53 p).1 : ℚ) * (2 : ℚ) ^ (round53 p).2

/-- `campaign_progress_increment` (lines 564-568): the binary64 quotient
`40.0 / len`, or `0.0` for an empty filtered set.  `len as f64` is exact
for every reachable length (`len < 2^53`). -/
def campaignProgressIncrement (n : ℕ) : ℕ × ℤ :=
  if n = 0 then (0, 0) else f64OfRat 40 n

/-- `current_progress` (line 572):
`40 + ((index as f64) * campaign_progress_increment) as u8`, with the
double-precision rounding of both the division and the multiplication
modelled bit-exactly. -/
def currentProgress (n i : ℕ) : ℕ :=
  40 + mulTrunc i (campaignProgressIncrement n)

/-- `time_remaining` for campaign index `i` (lines 575-587), from the
elapsed wall-clock seconds: running average times remaining campaigns,
rounded up; initial estimate for `i = 0`. -/
def timeRemainingAt (elapsed : ℚ) (n i : ℕ) : ℕ :=
  if 0 < i then ⌈elapsed / i * ((n - i : ℕ) : ℚ)⌉₊
  else initialEstimate n

/-- The per-campaign `ProcessingCampaigns` update (lines 590-602). -/
def processingUpdate (elapsed : ℚ) (n i : ℕ) (c : Json) : ProgressUpdate :=
  ⟨"ProcessingCampaigns", currentProgress n i,
   "Processing campaign " ++ toString (i + 1) ++ " of " ++ toString n ++
     ": " ++ ((campaignTitle c).getD "Untitled"),
   some (timeRemainingAt elapsed n i)⟩

/-- All per-campaign updates of the processing loop, in index order; the
update for index `i` is pushed whether or not the campaign is skipped
later in the loop body. -/
def processingUpdates (elapsedAt : ℕ → ℚ) (filtered : List Json) :
    List ProgressUpdate :=
  (List.range filtered.length).map
    (fun i =>
      processingUpdate (elapsedAt i) filtered.length i
        (filtered.getD i Json.null))

/-- Ad clicks contributed by one `urls_clicked` element (lines 651-660):
its `total_clicks` once per non-empty tracking fragment contained in its
`url` (each match adds independently). -/
def itemClicks (tracking : List String) (item : Json) : ℕ :=
  match (item.get "url").bind Json.asStr with
  | none => 0
  | some url =>
    (tracking.countP (fun t => !(t = "") && strContains url t)) *
      (((item.get "total_clicks").bind Json.asNat).getD 0)

/-- Total ad clicks of one campaign from its click-details response
(lines 641-664): any transport error, non-2xx status, malformed body or
missing `urls_clicked` array yields zero. -/
def adClicks (clickResp : HttpOutcome) (tracking : List String) : ℕ :=
  match clickResp with
  | .ok (some cdata) =>
    match (cdata.get "urls_clicked").bind Json.asArr with
    | some items => (items.map (itemClicks tracking)).sum
    | none => 0
  | _ => 0

/-- The loop body for one filtered campaign (lines 610-685): skip when
`id` or `send_time` is absent or unparseable, read the summary metrics
with defaults, fetch click details, compute the CTR, and keep the row
only when the ad-click total is positive. -/
def campaignEntry (clickHttp : String → HttpOutcome)
    (tracking : List String) (c : Json) : Option ReportEntry :=
  match (c.get "id").bind Json.asStr with
  | none => none
  | some cid =>
    match (c.get "send_time").bind Json.asStr with
    | none => none
    | some sendTime =>
      match parseRfc3339Date sendTime with
      | none => none
      | some formattedDate =>
        let summary := (c.get "report_summary").getD Json.null
        let uniqueOpens := ((summary.get "unique_opens").bind Json.asNat).getD 0
        let totalOpens := ((summary.get "opens").bind Json.asNat).getD 0
        let totalRecipients := ((c.get "emails_sent").bind Json.asNat).getD 0
        let ad := adClicks (clickHttp cid) tracking
        let ctr : ℚ :=
          if 0 < uniqueOpens then ((ad : ℚ) / (uniqueOpens : ℚ)) * 100 else 0
        if 0 < ad then
          some ⟨formattedDate, uniqueOpens, totalOpens, totalRecipients, ad, ctr⟩
        else none

/-- The comparator of the final sort (lines 716-720): lexicographic string
comparison of the send dates, as Rust `String::cmp`. -/
def reportDateLe (a b : ReportEntry) : Prop :=
  a.send_date ≤ b.send_date

instance : DecidableRel reportDateLe := fun a b =>
  inferInstanceAs (Decidable (a.send_date ≤ b.send_date))

instance : IsTotal ReportEntry reportDateLe :=
  ⟨fun a b => le_total a.send_date b.send_date⟩

instance : IsTrans ReportEntry reportDateLe :=
  ⟨fun _ _ _ hab hbc => le_trans hab hbc⟩

/-- The final sort of `report_data`.  Rust `sort_by` is a stable sort by
the comparator, so its output coincides with a stable insertion sort. -/
def sortReportData (l : List ReportEntry) : List ReportEntry :=
  l.insertionSort reportDateLe

/-- Stand-in for the Display text of the chrono parse error interpolated
at line 449; its exact wording is upstream of this repository. -/
def endDateParseErrorText : String := "premature end of input"

/-- Stand-in for the Display text of the serde parse error interpolated at
line 492; its exact wording is upstream of this repository. -/
def campaignsParseErrorText : String := "expected value"

/-- The `generate_report` command (lines 391-788) over an explicit
environment.  Every early return carries the progress updates emitted so
far; `fetchedUrls` records the campaign-list GET. -/
def generate_report (env : Env) (request : ReportRequest) : GenOutput :=
  match validate_tracking_urls env.urlParseOk request.tracking_urls with
  | .error e => ⟨.error e, [], [], none⟩
  | .ok _ =>
    let ups0 := [initializingUpdate]
    match env.loadSettings with
    | .error e => ⟨.error e, ups0, [], none⟩
    | .ok settings =>
      if settings.mailchimp_api_key = "" ∨ settings.mailchimp_audience_id = ""
      then
        ⟨.ok ⟨false, "Mailchimp API settings not configured", none, ups0⟩,
         ups0, [], none⟩
      else
        let ups1 := ups0 ++ [connectingUpdate]
        let baseU := base_url settings.mailchimp_api_key
        let startIso := request.date_range.start_date ++ "T00:00:00Z"
        match parseDateYMD request.date_range.end_date with
        | none =>
          ⟨.error ("Failed to parse end date: " ++ endDateParseErrorText),
           ups1, [], none⟩
        | some endDate =>
          let endIso := formatDate endDate ++ "T23:59:59Z"
          let campaignsUrl :=
            baseU ++ "/campaigns?since_send_time=" ++ startIso ++
              "&before_send_time=" ++ endIso ++ "&count=1000"
          let ups2 := ups1 ++ [fetchingUpdate]
          match env.campaignsHttp with
          | .netErr e =>
            ⟨.error ("Failed to fetch campaigns: " ++ e), ups2,
             [campaignsUrl], none⟩
          | .httpErr body =>
            ⟨.ok ⟨false, "Mailchimp API error: " ++ body, none, ups2⟩,
             ups2, [campaignsUrl], none⟩
          | .ok none =>
            ⟨.error ("Failed to parse campaigns response: " ++
                campaignsParseErrorText), ups2, [campaignsUrl], none⟩
          | .ok (some cdata) =>
            match (cdata.get "campaigns").bind Json.asArr with
            | none =>
              ⟨.ok ⟨false, "No campaigns found in response", none, ups2⟩,
               ups2, [campaignsUrl], none⟩
            | some campaigns =>
              match validate_campaign_data campaigns request.newsletter_type
              with
              | .error e => ⟨.error e, ups2, [campaignsUrl], none⟩
              | .ok _ =>
                let ups3 := ups2 ++ [filteringUpdate campaigns.length]
                let filtered :=
                  campaigns.filter (campaignMatches request.newsletter_type)
                let ups4 := ups3 ++ [initialProcessingUpdate filtered.length]
                let ups5 := ups4 ++ processingUpdates env.elapsedAt filtered
                let reportData :=
                  filtered.filterMap
                    (campaignEntry env.clickHttp request.tracking_urls)
                if reportData.isEmpty then
                  ⟨.ok ⟨false,
                     "No data found for the specified tracking URLs in campaigns matching \x27" ++
                       request.newsletter_type ++
                       "\x27. Please verify your tracking URLs and newsletter type.",
                     none, ups5⟩,
                   ups5, [campaignsUrl], none⟩
                else
                  let ups6 := ups5 ++ [finalizingUpdate]
                  let finalDoc : FinalReport :=
                    ⟨filtered, sortReportData reportData, request.metrics⟩
                  let ups7 := ups6 ++ [savingUpdate]
                  let report : SavedReport :=
                    ⟨"report-" ++ toString env.nowMillis,
                     request.advertiser ++ "-" ++ request.newsletter_type ++
                       "-" ++ env.todayStr,
                     request.advertiser, request.newsletter_type,
                     request.date_range, env.todayStr, finalDoc,
                     request.metrics⟩
                  match env.saveResult with
                  | .error e => ⟨.error e, ups7, [campaignsUrl], none⟩
                  | .ok _ =>
                    let ups8 := ups7 ++ [completeUpdate]
                    ⟨.ok ⟨true, "Report generated successfully",
                       some finalDoc, ups8⟩,
                     ups8, [campaignsUrl], some report⟩

/-- The success flag of a structured result (`none` for a fatal error). -/
def resultSuccess : Except String ReportResponse → Option Bool
  | .ok r => some r.success
  | .error _ => none

/-- The `report_data` rows of a successful run, when present. -/
def finalReportData (g : GenOutput) : Option (List ReportEntry) :=
  match g.result with
  | .ok r => r.data.map (fun d => d.report_data)
  | .error _ => none

/-- Replace the start date of a request, leaving everything else fixed. -/
def withStart (r : ReportRequest) (s : String) : ReportRequest :=
  { r with date_range := { r.date_range with start_date := s } }

/-- The fixed column order of the CSV exporters: metric key paired with
column title. -/
def csvColumns : List (String × String) :=
  [("unique_opens", "Unique Opens"), ("total_opens", "Total Opens"),
   ("total_recipients", "Total Recipients"), ("total_clicks", "Total Clicks"),
   ("ctr", "CTR")]

/-- The CSV cell of one entry for one metric key. -/
def csvCell (entry : Json) (key : String) : String :=
  if key = "ctr" then ctrCell entry else natCell entry key

/-- A settings document that fails the strict decode (the `advertisers`
field is a number) while carrying well-typed values for the other three
fields. -/
def invalidSettingsJson : Json :=
  .obj [("mailchimp_api_key", .str "k"),
        ("mailchimp_audience_id", .str "aud"),
        ("advertisers", .num 5),
        ("download_directory", .str "/x")]

/-- The metric selection of scenario S6:
unique opens, total recipients and total clicks only. -/
def s6metrics : Json :=
  .obj [("unique_opens", .bool true), ("total_opens", .bool false),
        ("total_recipients", .bool true), ("total_clicks", .bool true),
        ("ctr", .bool false)]

/-- A campaign document as returned by the campaign listing (scenario S1,
with no unique opens recorded). -/
def sampleCampaignNoOpens : Json :=
  .obj [("id", .str "c1"), ("send_time", .str "2024-01-15T14:00:00Z"),
        ("settings", .obj [("title", .str "HBCB Weekly")]),
        ("report_summary",
         .obj [("unique_opens", .num 0), ("opens", .num 250)]),
        ("emails_sent", .num 1000)]

/-- The scenario-S1 campaign document with 200 unique opens. -/
def sampleCampaign : Json :=
  .obj [("id", .str "c1"), ("send_time", .str "2024-01-15T14:00:00Z"),
        ("settings", .obj [("title", .str "HBCB Weekly")]),
        ("report_summary",
         .obj [("unique_opens", .num 200), ("opens", .num 250)]),
        ("emails_sent", .num 1000)]

/-- The click-details response of scenario S1: one clicked URL matching
the tracking fragment with 20 clicks. -/
def sampleClicks : HttpOutcome :=
  .ok (some (.obj [("urls_clicked",
    .arr [Json.obj [("url", .str "https://www.horizonblue.com/plan"),
                    ("total_clicks", .num 20)]])]))

/-- A fully configured environment whose campaign listing returns the
no-opens sample campaign. -/
def envNoOpens : Env :=
  { loadSettings := .ok ⟨"key-us21", "6732b2b110", ["HBCB"], "/dl"⟩
  , urlParseOk := fun _ => true
  , campaignsHttp := .ok (some (.obj [("campaigns", .arr [sampleCampaignNoOpens])]))
  , clickHttp := fun _ => sampleClicks
  , elapsedAt := fun _ => 1
  , saveResult := .ok ()
  , nowMillis := 1700000000000
  , todayStr := "2024-01-20" }

/-- The same environment with the 200-unique-opens sample campaign. -/
def envS1 : Env :=
  { envNoOpens with
      campaignsHttp := .ok (some (.obj [("campaigns", .arr [sampleCampaign])])) }

/-- An environment whose stored settings have an empty API credential. -/
def envUnconfigured : Env :=
  { envNoOpens with loadSettings := .ok ⟨"", "6732b2b110", [], "/dl"⟩ }

/-- The scenario-S1 request. -/
def reqS1 : ReportRequest :=
  { newsletter_type := "hbcb"
  , advertiser := "HBCB"
  , tracking_urls := ["horizonblue.com"]
  , date_range := ⟨"2024-01-01", "2024-01-31"⟩
  , metrics := ⟨true, true, true, true, true⟩ }

/-- The S1 environment with a campaign listing of 154 matching campaigns,
the smallest filtered size at which the binary64 progress increment makes
the truncated progress diverge from `40 + (i * 40) / n`. -/
def env154 : Env :=
  { envNoOpens with
      campaignsHttp :=
        .ok (some (.obj [("campaigns", .arr (List.replicate 154 sampleCampaign))])) }

theorem splitOnChar_ne_nil (sep : Char) (cs : List Char) :
    splitOnChar sep cs ≠ [] := by
  match cs with
  | [] => simp [splitOnChar]
  | c :: cs' =>
    unfold splitOnChar
    by_cases h : c = sep
    · simp [h]
    · simp only [h, if_false]
      match splitOnChar sep cs' with
      | [] => simp
      | h' :: t => simp

theorem splitOnChar_no_sep (sep : Char) (cs : List Char) (h : sep ∉ cs) :
    splitOnChar sep cs = [cs] := by
  induction cs with
  | nil => rfl
  | cons c cs' ih =>
    have hc : c ≠ sep := fun hc => h (hc ▸ List.mem_cons_self c cs')
    have hcs : sep ∉ cs' := fun hm => h (List.mem_cons_of_mem c hm)
    unfold splitOnChar
    simp only [hc, if_false, ih hcs]

theorem splitOnChar_after_sep (sep : Char) (suf : List Char)
    (h : sep ∉ suf) :
    ∀ pre : List Char,
      (splitOnChar sep (pre ++ sep :: suf)).getLast? = some suf ∧
      2 ≤ (splitOnChar sep (pre ++ sep :: suf)).length := by
  intro pre
  induction pre with
  | nil =>
    simp only [List.nil_append]
    unfold splitOnChar
    simp [splitOnChar_no_sep sep suf h]
  | cons c pre' ih =>
    obtain ⟨ihLast, ihLen⟩ := ih
    simp only [List.cons_append]
    unfold splitOnChar
    by_cases hc : c = sep
    · simp only [hc, if_true]
      constructor
      · rw [List.getLast?_cons, ihLast]
        cases hsp : splitOnChar sep (pre' ++ sep :: suf) with
        | nil => exact absurd hsp (splitOnChar_ne_nil _ _)
        | cons x xs =>
          rw [hsp] at ihLast
          simp [List.getLast?_cons, ihLast]
      · simp only [List.length_cons]
        exact Nat.le_succ_of_le ihLen
    · simp only [hc, if_false]
      cases hsp : splitOnChar sep (pre' ++ sep :: suf) with
      | nil => exact absurd hsp (splitOnChar_ne_nil _ _)
      | cons x xs =>
        rw [hsp] at ihLast ihLen
        cases xs with
        | nil => simp at ihLen
        | cons y ys =>
          constructor
          · rw [List.getLast?_cons_cons] at ihLast ⊢
            exact ihLast
          · simp only [List.length_cons] at ihLen ⊢
            exact ihLen

theorem decodeStrList_map_str (l : List String) :
    decodeStrList (l.map Json.str) = some l := by
  induction l with
  | nil => rfl
  | cons s rest ih => simp [decodeStrList, Json.asStr, ih]

theorem decode_encode (s : Settings) :
    decodeSettingsStrict (encodeSettings s) = some s := by
  simp [decodeSettingsStrict, encodeSettings, Json.get, List.lookup,
    Json.asStr, Json.asArr, decodeStrList_map_str]

/-- C3.  Saving a well-formed `Settings` value and loading it back returns
an equal value; well-formed means the download directory is non-empty (an
empty one is replaced by the OS default on load, per the load rules). -/
theorem c3_settings_roundtrip (osDir : String) (s : Settings)
    (h : s.download_directory ≠ "") :
    load_settings osDir (save_settings s) = s := by
  simp [load_settings, save_settings, decode_encode, h]

theorem c3_settings_roundtrip_witness :
    (("/home/u/Downloads" : String) ≠ "") ∧
    load_settings "/os"
        (save_settings ⟨"key-us21", "6732b2b110", ["ACG"], "/home/u/Downloads"⟩) =
      ⟨"key-us21", "6732b2b110", ["ACG"], "/home/u/Downloads"⟩ :=
  ⟨by decide, c3_settings_roundtrip "/os" _ (by decide)⟩

/-- C4 counterexample.  A credential without a dash keeps itself as the
data-center tag: `split('-').last()` always yields a piece, so the
`unwrap_or("us1")` default is unreachable and the base URL is not the
`us1` one. -/
theorem c4_counterexample :
    ('-' ∉ "abc".data) ∧
    base_url "abc" = "https://abc.api.mailchimp.com/3.0" ∧
    base_url "abc" ≠ "https://us1.api.mailchimp.com/3.0" := by
  refine ⟨by decide, rfl, by decide⟩

/-- C4 amended.  The base URL is `https://<dc>.api.mailchimp.com/3.0`
where `<dc>` is the substring after the last dash of the credential; for
a credential containing no dash, `<dc>` is the whole credential (the
`"us1"` default is dead code). -/
theorem c4_base_url_dc :
    (∀ key : String,
      base_url key = "https://" ++ dcString key ++ ".api.mailchimp.com/3.0") ∧
    (∀ p suf : List Char, '-' ∉ suf → dcOf (p ++ '-' :: suf) = suf) ∧
    (∀ key : List Char, '-' ∉ key → dcOf key = key) := by
  refine ⟨fun key => rfl, ?_, ?_⟩
  · intro p suf h
    unfold dcOf
    rw [(splitOnChar_after_sep '-' suf h p).1]
    rfl
  · intro key h
    unfold dcOf
    rw [splitOnChar_no_sep '-' key h]
    rfl

theorem c4_base_url_dc_witness :
    dcOf ("ab".data ++ '-' :: "us9".data) = "us9".data ∧
    dcOf ("abc".data) = "abc".data :=
  ⟨c4_base_url_dc.2.1 ("ab".data) ("us9".data) (by decide),
   c4_base_url_dc.2.2 ("abc".data) (by decide)⟩

/-- C5 counterexample.  On a file that fails the strict decode, the
re-parse does not keep every present well-typed field: the audience id
and the download directory of the file are ignored in favour of the
defaults. -/
theorem c5_counterexample :
    decodeSettingsStrict invalidSettingsJson = none ∧
    (invalidSettingsJson.get "mailchimp_audience_id").bind Json.asStr =
      some "aud" ∧
    (invalidSettingsJson.get "download_directory").bind Json.asStr =
      some "/x" ∧
    load_settings "/os/Downloads" (some invalidSettingsJson) =
      ⟨"k", "6732b2b110", [], "/os/Downloads"⟩ ∧
    ("6732b2b110" : String) ≠ "aud" ∧
    ("/os/Downloads" : String) ≠ "/x" := by
  refine ⟨by decide, by decide, by decide, by decide, by decide, by decide⟩

theorem filterMap_asStr_map_str (l : List String) :
    (l.map Json.str).filterMap Json.asStr = l := by
  induction l with
  | nil => rfl
  | cons s rest ih => simp_all [Json.asStr]

/-- C5 amended.  When the strict decode fails, `load_settings` returns the
field-by-field fallback: the api key is the file value when present and
string-typed (empty otherwise), the audience id is always the default,
the advertisers are the string elements of the file array when present
(empty otherwise), and the download directory is always the OS default. -/
theorem c5_fallback_fields (osDir : String) (j : Json)
    (h : decodeSettingsStrict j = none) :
    load_settings osDir (some j) = fallbackSettings osDir j ∧
    (∀ k, (j.get "mailchimp_api_key").bind Json.asStr = some k →
      (load_settings osDir (some j)).mailchimp_api_key = k) ∧
    (load_settings osDir (some j)).mailchimp_audience_id =
      defaultAudienceId ∧
    (∀ l : List String,
      (j.get "advertisers").bind Json.asArr = some (l.map Json.str) →
      (load_settings osDir (some j)).advertisers = l) ∧
    (load_settings osDir (some j)).download_directory = osDir := by
  have hload : load_settings osDir (some j) = fallbackSettings osDir j := by
    unfold load_settings
    simp only [h]
    by_cases hd : (fallbackSettings osDir j).download_directory = ""
    · simp only [hd, if_true]
      have hos : osDir = "" := hd
      simp [fallbackSettings, hos]
    · simp only [hd, if_false]
  refine ⟨hload, ?_, ?_, ?_, ?_⟩
  · intro k hk
    rw [hload]
    simp [fallbackSettings, hk]
  · rw [hload]; rfl
  · intro l hl
    rw [hload]
    simp only [fallbackSettings, hl, Option.map_some, Option.getD_some]
    exact filterMap_asStr_map_str l
  · rw [hload]; rfl

theorem c5_fallback_fields_witness :
    load_settings "/os" (some invalidSettingsJson) =
      fallbackSettings "/os" invalidSettingsJson ∧
    (load_settings "/os" (some invalidSettingsJson)).mailchimp_api_key =
      "k" ∧
    (load_settings "/os" (some invalidSettingsJson)).mailchimp_audience_id =
      defaultAudienceId ∧
    (load_settings "/os" (some invalidSettingsJson)).download_directory =
      "/os" :=
  ⟨(c5_fallback_fields "/os" invalidSettingsJson (by decide)).1,
   (c5_fallback_fields "/os" invalidSettingsJson (by decide)).2.1 "k"
     (by decide),
   (c5_fallback_fields "/os" invalidSettingsJson (by decide)).2.2.1,
   (c5_fallback_fields "/os" invalidSettingsJson (by decide)).2.2.2.2⟩

/-- C9.  The CSV header is `Date` followed by exactly the enabled columns
of the metric selection, in the fixed order of `csvColumns`; every data
row has the same shape (the date cell followed by one cell per enabled
column); `download_csv` emits exactly these fields; and the S6 selection
yields the header `Date,Unique Opens,Total Recipients,Total Clicks`. -/
theorem c9_csv_columns :
    (∀ metrics : Json, headerFields metrics =
      "Date" ::
        (csvColumns.filter (fun c => metricFlag metrics c.1)).map Prod.snd) ∧
    (∀ metrics entry : Json, rowFields metrics entry =
      (((entry.get "send_date").bind Json.asStr).getD "N/A") ::
        (csvColumns.filter (fun c => metricFlag metrics c.1)).map
          (fun c => csvCell entry c.1)) ∧
    (∀ metrics entry : Json,
      (rowFields metrics entry).length = (headerFields metrics).length) ∧
    (∀ reportData data metrics : Json,
      reportData.get "data" = some data →
      data.get "metrics" = some metrics →
      download_csv reportData =
        Except.ok
          (csvText metrics ((data.get "report_data").bind Json.asArr))) ∧
    String.intercalate "," (headerFields s6metrics) =
      "Date,Unique Opens,Total Recipients,Total Clicks" := by
  have hHead : ∀ metrics : Json, headerFields metrics =
      "Date" ::
        (csvColumns.filter (fun c => metricFlag metrics c.1)).map Prod.snd := by
    intro metrics
    cases h1 : metricFlag metrics "unique_opens" <;>
      cases h2 : metricFlag metrics "total_opens" <;>
      cases h3 : metricFlag metrics "total_recipients" <;>
      cases h4 : metricFlag metrics "total_clicks" <;>
      cases h5 : metricFlag metrics "ctr" <;>
      simp [headerFields, csvColumns, h1, h2, h3, h4, h5, List.filter]
  have hRow : ∀ metrics entry : Json, rowFields metrics entry =
      (((entry.get "send_date").bind Json.asStr).getD "N/A") ::
        (csvColumns.filter (fun c => metricFlag metrics c.1)).map
          (fun c => csvCell entry c.1) := by
    intro metrics entry
    cases h1 : metricFlag metrics "unique_opens" <;>
      cases h2 : metricFlag metrics "total_opens" <;>
      cases h3 : metricFlag metrics "total_recipients" <;>
      cases h4 : metricFlag metrics "total_clicks" <;>
      cases h5 : metricFlag metrics "ctr" <;>
      simp [rowFields, csvColumns, csvCell, h1, h2, h3, h4, h5, List.filter]
  refine ⟨hHead, hRow, ?_, ?_, ?_⟩
  · intro metrics entry
    rw [hHead, hRow]
    simp
  · intro reportData data metrics hdata hmetrics
    unfold download_csv
    simp only [hdata, hmetrics]
  · decide

theorem c9_csv_columns_witness :
    download_csv
        (.obj [("data", .obj [("metrics", s6metrics)])]) =
      Except.ok
        (csvText s6metrics
          (((Json.obj [("metrics", s6metrics)]).get "report_data").bind
            Json.asArr)) :=
  c9_csv_columns.2.2.2.1 (.obj [("data", .obj [("metrics", s6metrics)])])
    (.obj [("metrics", s6metrics)]) s6metrics rfl rfl

theorem mem_of_getLast?_eq {α : Type} :
    ∀ {l : List α} {a : α}, l.getLast? = some a → a ∈ l
  | [], _, h => by simp at h
  | [x], a, h => by
    simp only [List.getLast?_singleton, Option.some.injEq] at h
    simp [h]
  | x :: y :: t, a, h => by
    rw [List.getLast?_cons_cons] at h
    exact List.mem_cons_of_mem x (mem_of_getLast?_eq h)

-- ### bit length

theorem bitlenAux_zero (fuel : ℕ) : bitlenAux fuel 0 = 0 := by
  cases fuel <;> rfl

theorem bitlenAux_correct :
    ∀ fuel n, n ≤ fuel → n ≠ 0 →
      2 ^ (bitlenAux fuel n - 1) ≤ n ∧ n < 2 ^ bitlenAux fuel n := by
  intro fuel
  induction fuel with
  | zero => intro n hn h0; omega
  | succ fuel ih =>
    intro n hn h0
    show 2 ^ ((if n = 0 then 0 else bitlenAux fuel (n / 2) + 1) - 1) ≤ n ∧
      n < 2 ^ (if n = 0 then 0 else bitlenAux fuel (n / 2) + 1)
    rw [if_neg h0]
    by_cases h2 : n / 2 = 0
    · have hn1 : n = 1 := by omega
      subst hn1
      simp [bitlenAux_zero]
    · have hle : n / 2 ≤ fuel := by omega
      obtain ⟨hlo, hhi⟩ := ih (n / 2) hle h2
      set k := bitlenAux fuel (n / 2) with hk
      have hk1 : 1 ≤ k := by
        by_contra h
        have hkz : k = 0 := by omega
        rw [hkz, pow_zero] at hhi
        omega
      have hsplit : 2 ^ k = 2 * 2 ^ (k - 1) := by
        conv_lhs => rw [show k = k - 1 + 1 by omega]
        rw [pow_succ]
        ring
      have hsplit2 : 2 ^ (k + 1) = 2 * 2 ^ k := by
        rw [pow_succ]; ring
      constructor
      · simp only [Nat.add_sub_cancel]
        omega
      · omega

theorem natBits_correct (n : ℕ) (h : n ≠ 0) :
    2 ^ (natBits n - 1) ≤ n ∧ n < 2 ^ natBits n :=
  bitlenAux_correct n n le_rfl h

theorem natBits_pos (n : ℕ) (h : n ≠ 0) : 1 ≤ natBits n := by
  have h2 := (natBits_correct n h).2
  by_contra hc
  have h0 : natBits n = 0 := by omega
  rw [h0, pow_zero] at h2
  omega

theorem natBits_mono {m n : ℕ} (h : m ≤ n) : natBits m ≤ natBits n := by
  rcases eq_or_ne m 0 with rfl | hm
  · simp [natBits, bitlenAux_zero]
  · have hn : n ≠ 0 := by omega
    by_contra hc
    push_neg at hc
    have h1 := (natBits_correct m hm).1
    have h2 := (natBits_correct n hn).2
    have hp : (2:ℕ) ^ natBits n ≤ 2 ^ (natBits m - 1) :=
      Nat.pow_le_pow_right (by norm_num) (by omega)
    omega

-- ### round-half-even on naturals

theorem rhedNat_ge_div (p q : ℕ) : p / q ≤ rhedNat p q := by
  unfold rhedNat
  split_ifs <;> omega

theorem rhedNat_le_div_succ (p q : ℕ) : rhedNat p q ≤ p / q + 1 := by
  unfold rhedNat
  split_ifs <;> omega

theorem rhedNat_bounds (p q : ℕ) (hq : q ≠ 0) :
    (p : ℚ) / q - 1 / 2 ≤ (rhedNat p q : ℚ) ∧
    (rhedNat p q : ℚ) ≤ (p : ℚ) / q + 1 / 2 := by
  have hq0 : (0:ℚ) < (q:ℚ) := by exact_mod_cast Nat.pos_of_ne_zero hq
  have hmod : (q : ℚ) * ((p / q : ℕ) : ℚ) + ((p % q : ℕ) : ℚ) = (p : ℚ) := by
    exact_mod_cast Nat.div_add_mod p q
  have hlt : ((p % q : ℕ) : ℚ) < (q : ℚ) := by
    exact_mod_cast Nat.mod_lt p (Nat.pos_of_ne_zero hq)
  have hr0 : (0:ℚ) ≤ ((p % q : ℕ) : ℚ) := by positivity
  have hpq : (p : ℚ) / q = ((p / q : ℕ) : ℚ) + ((p % q : ℕ) : ℚ) / q := by
    field_simp
    linarith [hmod]
  unfold rhedNat
  split_ifs with h1 h2 h3
  · have hc : (2:ℚ) * ((p % q : ℕ) : ℚ) < (q : ℚ) := by exact_mod_cast h1
    have hrq : ((p % q : ℕ) : ℚ) / q ≤ 1 / 2 := by
      rw [div_le_div_iff hq0 (by norm_num)]
      linarith
    have hrq0 : (0:ℚ) ≤ ((p % q : ℕ) : ℚ) / q := by positivity
    rw [hpq]
    constructor <;> linarith
  · have hc : (q : ℚ) < 2 * ((p % q : ℕ) : ℚ) := by exact_mod_cast h2
    have hrq : (1:ℚ) / 2 ≤ ((p % q : ℕ) : ℚ) / q := by
      rw [div_le_div_iff (by norm_num) hq0]
      linarith
    have hrq1 : ((p % q : ℕ) : ℚ) / q < 1 := by
      rw [div_lt_one hq0]
      exact hlt
    rw [hpq]
    push_cast
    constructor <;> linarith
  · have hc : (2:ℚ) * ((p % q : ℕ) : ℚ) = (q : ℚ) := by
      exact_mod_cast (by omega : 2 * (p % q) = q)
    have hrq : ((p % q : ℕ) : ℚ) / q = 1 / 2 := by
      rw [div_eq_div_iff (ne_of_gt hq0) (by norm_num)]
      linarith
    rw [hpq, hrq]
    constructor <;> linarith
  · have hc : (2:ℚ) * ((p % q : ℕ) : ℚ) = (q : ℚ) := by
      exact_mod_cast (by omega : 2 * (p % q) = q)
    have hrq : ((p % q : ℕ) : ℚ) / q = 1 / 2 := by
      rw [div_eq_div_iff (ne_of_gt hq0) (by norm_num)]
      linarith
    rw [hpq, hrq]
    push_cast
    constructor <;> linarith

theorem rhedNat_mono_left {p p' q : ℕ} (hq : q ≠ 0) (h : p ≤ p') :
    rhedNat p q ≤ rhedNat p' q := by
  have hd : p / q ≤ p' / q := Nat.div_le_div_right h
  rcases Nat.lt_or_ge (p / q) (p' / q) with hlt | hge
  · calc rhedNat p q ≤ p / q + 1 := rhedNat_le_div_succ p q
      _ ≤ p' / q := by omega
      _ ≤ rhedNat p' q := rhedNat_ge_div p' q
  · have hdd : p / q = p' / q := by omega
    have hmod : q * (p / q) + p % q = p := Nat.div_add_mod p q
    have hmod' : q * (p' / q) + p' % q = p' := Nat.div_add_mod p' q
    rw [← hdd] at hmod'
    have hr : p % q ≤ p' % q := by omega
    unfold rhedNat
    rw [hdd]
    split_ifs <;> omega

-- ### bracketing for `pow2LeRat` and `ratLog2`

theorem zpow_toNat_cast (g : ℤ) (hg : 0 ≤ g) :
    (2:ℚ) ^ g = ((2 ^ g.toNat : ℕ) : ℚ) := by
  rw [← Int.toNat_of_nonneg hg, zpow_natCast]
  push_cast
  rw [Int.toNat_of_nonneg hg]

theorem pow2LeRat_iff (a b : ℕ) (hb : b ≠ 0) (g : ℤ) :
    pow2LeRat a b g = true ↔ (2:ℚ) ^ g ≤ (a : ℚ) / b := by
  have hb0 : (0:ℚ) < (b:ℚ) := by exact_mod_cast Nat.pos_of_ne_zero hb
  unfold pow2LeRat
  split_ifs with hg
  · rw [decide_eq_true_iff, le_div_iff hb0, zpow_toNat_cast g hg]
    constructor
    · intro h
      calc ((2 ^ g.toNat : ℕ) : ℚ) * b = ((b * 2 ^ g.toNat : ℕ) : ℚ) := by
            push_cast; ring
        _ ≤ (a : ℚ) := by exact_mod_cast h
    · intro h
      have : ((b * 2 ^ g.toNat : ℕ) : ℚ) ≤ (a : ℚ) := by
        push_cast
        push_cast at h
        linarith
      exact_mod_cast this
  · push_neg at hg
    have hng : 0 ≤ -g := by omega
    have hpow : (0:ℚ) < ((2 ^ (-g).toNat : ℕ) : ℚ) := by positivity
    rw [decide_eq_true_iff]
    have hz : (2:ℚ) ^ g = (((2 ^ (-g).toNat : ℕ) : ℚ))⁻¹ := by
      rw [← zpow_toNat_cast (-g) hng, ← zpow_neg, neg_neg]
    rw [hz, le_div_iff hb0, inv_mul_le_iff hpow]
    constructor
    · intro h
      have h2 : (b : ℚ) ≤ ((a * 2 ^ (-g).toNat : ℕ) : ℚ) := by exact_mod_cast h
      push_cast at h2 ⊢
      linarith
    · intro h
      have h2 : (b : ℚ) ≤ ((a * 2 ^ (-g).toNat : ℕ) : ℚ) := by
        push_cast
        push_cast at h
        linarith
      exact_mod_cast h2

theorem ratLog2_correct (a b : ℕ) (ha : a ≠ 0) (hb : b ≠ 0) :
    (2:ℚ) ^ ratLog2 a b ≤ (a:ℚ)/b ∧ (a:ℚ)/b < (2:ℚ) ^ (ratLog2 a b + 1) := by
  obtain ⟨ha1, ha2⟩ := natBits_correct a ha
  obtain ⟨hb1, hb2⟩ := natBits_correct b hb
  have hb0 : (0:ℚ) < (b:ℚ) := by exact_mod_cast Nat.pos_of_ne_zero hb
  have hbpos := natBits_pos b hb
  have hapos := natBits_pos a ha
  set la := natBits a with hla
  set lb := natBits b with hlb
  set g : ℤ := (la : ℤ) - (lb : ℤ) with hg
  have hna : (a : ℚ) < (2:ℚ) ^ (la : ℤ) := by
    rw [zpow_natCast]
    exact_mod_cast ha2
  have hna1 : (2:ℚ) ^ ((la : ℤ) - 1) ≤ (a : ℚ) := by
    have : ((la : ℤ) - 1) = ((la - 1 : ℕ) : ℤ) := by omega
    rw [this, zpow_natCast]
    exact_mod_cast ha1
  have hnb : (b : ℚ) < (2:ℚ) ^ (lb : ℤ) := by
    rw [zpow_natCast]
    exact_mod_cast hb2
  have hnb1 : (2:ℚ) ^ ((lb : ℤ) - 1) ≤ (b : ℚ) := by
    have : ((lb : ℤ) - 1) = ((lb - 1 : ℕ) : ℤ) := by omega
    rw [this, zpow_natCast]
    exact_mod_cast hb1
  have hub : (a:ℚ)/b < (2:ℚ) ^ (g + 1) := by
    rw [div_lt_iff hb0]
    calc (a : ℚ) < (2:ℚ) ^ (la : ℤ) := hna
      _ = (2:ℚ) ^ (g + 1) * (2:ℚ) ^ ((lb : ℤ) - 1) := by
          rw [← zpow_add₀ (by norm_num : (2:ℚ) ≠ 0)]
          congr 1
          omega
      _ ≤ (2:ℚ) ^ (g + 1) * (b : ℚ) := by
          apply mul_le_mul_of_nonneg_left hnb1
          positivity
  have hlbd : (2:ℚ) ^ (g - 1) < (a:ℚ)/b := by
    rw [lt_div_iff hb0]
    calc (2:ℚ) ^ (g - 1) * (b : ℚ) < (2:ℚ) ^ (g - 1) * (2:ℚ) ^ (lb : ℤ) := by
          apply mul_lt_mul_of_pos_left hnb
          positivity
      _ = (2:ℚ) ^ ((la : ℤ) - 1) := by
          rw [← zpow_add₀ (by norm_num : (2:ℚ) ≠ 0)]
          congr 1
          omega
      _ ≤ (a : ℚ) := hna1
  unfold ratLog2
  rw [← hla, ← hlb, ← hg]
  split_ifs with hcase
  · exact ⟨(pow2LeRat_iff a b hb g).mp hcase, hub⟩
  · have hnle : ¬ ((2:ℚ) ^ g ≤ (a:ℚ)/b) := by
      intro hcon
      exact hcase ((pow2LeRat_iff a b hb g).mpr hcon)
    push_neg at hnle
    constructor
    · have : g - 1 + 1 = g := by omega
      exact le_of_lt hlbd
    · have : g - 1 + 1 = g := by omega
      rw [this]
      exact hnle

-- ### `f64OfRat` relative error

theorem f64OfRat_spec (a b : ℕ) (ha : a ≠ 0) (hb : b ≠ 0) :
    (a:ℚ)/b * (1 - 1/2^53) ≤ dyadicVal (f64OfRat a b) ∧
    dyadicVal (f64OfRat a b) ≤ (a:ℚ)/b * (1 + 1/2^53) := by
  obtain ⟨hlog1, hlog2⟩ := ratLog2_correct a b ha hb
  have hb0 : (0:ℚ) < (b:ℚ) := by exact_mod_cast Nat.pos_of_ne_zero hb
  have ha0 : (0:ℚ) < (a:ℚ) := by exact_mod_cast Nat.pos_of_ne_zero ha
  set L := ratLog2 a b with hL
  set x : ℚ := (a:ℚ)/b with hx
  have hx0 : 0 < x := by positivity
  set e : ℤ := L - 52 with he
  -- the scaled value x * 2^(-e) lies in [2^52, 2^53)
  have hm1 : (2:ℚ) ^ (52:ℕ) ≤ x * (2:ℚ) ^ (-e) := by
    have : (2:ℚ) ^ (52:ℕ) = (2:ℚ) ^ L * (2:ℚ) ^ (-e) := by
      rw [← zpow_add₀ (by norm_num : (2:ℚ) ≠ 0)]
      rw [show L + -e = (52:ℤ) by omega]
      norm_num
    rw [this]
    apply mul_le_mul_of_nonneg_right hlog1
    positivity
  have hm2 : x * (2:ℚ) ^ (-e) < (2:ℚ) ^ (53:ℕ) := by
    have : (2:ℚ) ^ (53:ℕ) = (2:ℚ) ^ (L+1) * (2:ℚ) ^ (-e) := by
      rw [← zpow_add₀ (by norm_num : (2:ℚ) ≠ 0)]
      rw [show L + 1 + -e = (53:ℤ) by omega]
      norm_num
    rw [this]
    apply mul_lt_mul_of_pos_right hlog2
    positivity
  -- in both branches the mantissa is rhedNat p q with (p:ℚ)/q = x * 2^(-e)
  have key : ∀ p q : ℕ, q ≠ 0 → (p:ℚ)/q = x * (2:ℚ) ^ (-e) →
      x * (1 - 1/2^53) ≤ (rhedNat p q : ℚ) * (2:ℚ) ^ e ∧
      (rhedNat p q : ℚ) * (2:ℚ) ^ e ≤ x * (1 + 1/2^53) := by
    intro p q hq hpq
    obtain ⟨hr1, hr2⟩ := rhedNat_bounds p q hq
    rw [hpq] at hr1 hr2
    have hhalf : (1:ℚ)/2 ≤ x * (2:ℚ) ^ (-e) / 2^53 := by
      rw [div_le_div_iff (by norm_num) (by norm_num)]
      calc (1:ℚ) * 2^53 = 2 * (2:ℚ)^(52:ℕ) := by norm_num
        _ ≤ 2 * (x * (2:ℚ) ^ (-e)) := by linarith
        _ = x * (2:ℚ) ^ (-e) * 2 := by ring
    have hep : (0:ℚ) < (2:ℚ) ^ e := by positivity
    have hcancel : (2:ℚ) ^ (-e) * (2:ℚ) ^ e = 1 := by
      rw [← zpow_add₀ (by norm_num : (2:ℚ) ≠ 0)]
      simp
    constructor
    · have step : x * (2:ℚ) ^ (-e) * (1 - 1/2^53) ≤ (rhedNat p q : ℚ) := by
        have : x * (2:ℚ) ^ (-e) * (1 - 1/2^53) =
            x * (2:ℚ) ^ (-e) - x * (2:ℚ) ^ (-e) / 2^53 := by ring
        rw [this]
        linarith
      calc x * (1 - 1/2^53) = x * (2:ℚ) ^ (-e) * (1 - 1/2^53) * (2:ℚ) ^ e := by
            rw [show x * (2:ℚ) ^ (-e) * (1 - 1/2^53) * (2:ℚ) ^ e
              = x * (1 - 1/2^53) * ((2:ℚ) ^ (-e) * (2:ℚ) ^ e) by ring, hcancel]
            ring
        _ ≤ (rhedNat p q : ℚ) * (2:ℚ) ^ e := by
            apply mul_le_mul_of_nonneg_right step (le_of_lt hep)
    · have step : (rhedNat p q : ℚ) ≤ x * (2:ℚ) ^ (-e) * (1 + 1/2^53) := by
        have : x * (2:ℚ) ^ (-e) * (1 + 1/2^53) =
            x * (2:ℚ) ^ (-e) + x * (2:ℚ) ^ (-e) / 2^53 := by ring
        rw [this]
        linarith
      calc (rhedNat p q : ℚ) * (2:ℚ) ^ e ≤
            x * (2:ℚ) ^ (-e) * (1 + 1/2^53) * (2:ℚ) ^ e := by
            apply mul_le_mul_of_nonneg_right step (le_of_lt hep)
        _ = x * (1 + 1/2^53) := by
            rw [show x * (2:ℚ) ^ (-e) * (1 + 1/2^53) * (2:ℚ) ^ e
              = x * (1 + 1/2^53) * ((2:ℚ) ^ (-e) * (2:ℚ) ^ e) by ring, hcancel]
            ring
  unfold f64OfRat
  rw [if_neg ha]
  split_ifs with hcase
  · -- e ≥ 0 : mantissa rhedNat a (b * 2^e.toNat)
    have hq : b * 2 ^ (ratLog2 a b - 52).toNat ≠ 0 := by positivity
    have hpq : (a:ℚ)/(b * 2 ^ (ratLog2 a b - 52).toNat : ℕ) = x * (2:ℚ) ^ (-e) := by
      have h2 : ((b * 2 ^ (ratLog2 a b - 52).toNat : ℕ) : ℚ) =
          (b : ℚ) * (2:ℚ) ^ e := by
        push_cast
        congr 1
        rw [← zpow_natCast (2:ℚ) (ratLog2 a b - 52).toNat,
          Int.toNat_of_nonneg hcase]
      rw [h2, hx]
      rw [div_mul_eq_div_div]
      rw [div_eq_mul_inv ((a:ℚ)/b), ← zpow_neg]
    have := key a (b * 2 ^ (ratLog2 a b - 52).toNat) hq hpq
    simpa [dyadicVal] using this
  · -- e < 0 : mantissa rhedNat (a * 2^(52-L).toNat) b
    have hpq : ((a * 2 ^ (52 - ratLog2 a b).toNat : ℕ) : ℚ)/b =
        x * (2:ℚ) ^ (-e) := by
      push_cast
      have h2 : ((2:ℚ) ^ (52 - ratLog2 a b).toNat) = (2:ℚ) ^ (-e) := by
        rw [← zpow_natCast (2:ℚ) (52 - ratLog2 a b).toNat,
          Int.toNat_of_nonneg (by omega : (0:ℤ) ≤ 52 - ratLog2 a b)]
        congr 1
        omega
      rw [h2, hx]
      ring
    have := key (a * 2 ^ (52 - ratLog2 a b).toNat) b hb hpq
    simpa [dyadicVal] using this

-- ### `round53` bounds and monotonicity

theorem round53_bracket (p : ℕ) (h : ¬ natBits p ≤ 53) :
    2 ^ (52 + (natBits p - 53)) ≤ p ∧ p < 2 ^ (53 + (natBits p - 53)) := by
  have hp0 : p ≠ 0 := by
    intro h0
    rw [h0] at h
    simp [natBits, bitlenAux_zero] at h
  obtain ⟨h1, h2⟩ := natBits_correct p hp0
  constructor
  · have he : 52 + (natBits p - 53) = natBits p - 1 := by omega
    rw [he]
    exact h1
  · have he : 53 + (natBits p - 53) = natBits p := by omega
    rw [he]
    exact h2

theorem round53_le (p : ℕ) : val53 p ≤ (p:ℚ) * (1 + 1/2^53) := by
  unfold val53 round53
  split_ifs with hc
  · simp only
    rw [pow_zero, mul_one]
    nlinarith [Nat.cast_nonneg (α := ℚ) p]
  · simp only
    obtain ⟨hb1, hb2⟩ := round53_bracket p hc
    set s := natBits p - 53 with hs
    have hq : (2:ℕ) ^ s ≠ 0 := by positivity
    obtain ⟨hr1, hr2⟩ := rhedNat_bounds p (2 ^ s) hq
    have hps : (0:ℚ) < ((2 ^ s : ℕ) : ℚ) := by positivity
    have hcc : ((2 ^ s : ℕ) : ℚ) * 2^53 = ((2 ^ (53 + s) : ℕ) : ℚ) := by
      push_cast
      rw [pow_add]
      ring
    have hbig : ((2 ^ (53 + s) : ℕ) : ℚ) ≤ 2 * (p:ℚ) := by
      have hnat : (2:ℕ) ^ (53 + s) ≤ 2 * p := by
        have he : (2:ℕ) ^ (53 + s) = 2 * 2 ^ (52 + s) := by
          rw [show 53 + s = (52 + s) + 1 by omega, pow_succ]
          ring
        omega
      exact_mod_cast hnat
    have hhalf : (1:ℚ)/2 ≤ (p:ℚ) / ((2 ^ s : ℕ) : ℚ) / 2^53 := by
      rw [div_div, div_le_div_iff (by norm_num) (by positivity)]
      linarith
    calc (rhedNat p (2 ^ s) : ℚ) * (2:ℚ) ^ s ≤
          ((p:ℚ) / ((2 ^ s : ℕ) : ℚ) + 1/2) * (2:ℚ) ^ s := by
          apply mul_le_mul_of_nonneg_right hr2
          positivity
      _ ≤ ((p:ℚ) / ((2 ^ s : ℕ) : ℚ) * (1 + 1/2^53)) * (2:ℚ) ^ s := by
          apply mul_le_mul_of_nonneg_right _ (by positivity)
          have expand : (p:ℚ) / ((2 ^ s : ℕ) : ℚ) * (1 + 1/2^53) =
              (p:ℚ) / ((2 ^ s : ℕ) : ℚ) + (p:ℚ) / ((2 ^ s : ℕ) : ℚ) / 2^53 := by
            ring
          rw [expand]
          linarith
      _ = (p:ℚ) * (1 + 1/2^53) := by
          have hcast : ((2 ^ s : ℕ) : ℚ) = (2:ℚ) ^ s := by push_cast; ring
          rw [hcast]
          field_simp
          ring

theorem round53_ge (p : ℕ) : (p:ℚ) * (1 - 1/2^53) ≤ val53 p := by
  unfold val53 round53
  split_ifs with hc
  · simp only
    rw [pow_zero, mul_one]
    nlinarith [Nat.cast_nonneg (α := ℚ) p]
  · simp only
    obtain ⟨hb1, hb2⟩ := round53_bracket p hc
    set s := natBits p - 53 with hs
    have hq : (2:ℕ) ^ s ≠ 0 := by positivity
    obtain ⟨hr1, hr2⟩ := rhedNat_bounds p (2 ^ s) hq
    have hps : (0:ℚ) < ((2 ^ s : ℕ) : ℚ) := by positivity
    have hcc : ((2 ^ s : ℕ) : ℚ) * 2^53 = ((2 ^ (53 + s) : ℕ) : ℚ) := by
      push_cast
      rw [pow_add]
      ring
    have hbig : ((2 ^ (53 + s) : ℕ) : ℚ) ≤ 2 * (p:ℚ) := by
      have hnat : (2:ℕ) ^ (53 + s) ≤ 2 * p := by
        have he : (2:ℕ) ^ (53 + s) = 2 * 2 ^ (52 + s) := by
          rw [show 53 + s = (52 + s) + 1 by omega, pow_succ]
          ring
        omega
      exact_mod_cast hnat
    have hhalf : (1:ℚ)/2 ≤ (p:ℚ) / ((2 ^ s : ℕ) : ℚ) / 2^53 := by
      rw [div_div, div_le_div_iff (by norm_num) (by positivity)]
      linarith
    calc (p:ℚ) * (1 - 1/2^53) =
          ((p:ℚ) / ((2 ^ s : ℕ) : ℚ) * (1 - 1/2^53)) * (2:ℚ) ^ s := by
          have hcast : ((2 ^ s : ℕ) : ℚ) = (2:ℚ) ^ s := by push_cast; ring
          rw [hcast]
          field_simp
          ring
      _ ≤ ((p:ℚ) / ((2 ^ s : ℕ) : ℚ) - 1/2) * (2:ℚ) ^ s := by
          apply mul_le_mul_of_nonneg_right _ (by positivity)
          have expand : (p:ℚ) / ((2 ^ s : ℕ) : ℚ) * (1 - 1/2^53) =
              (p:ℚ) / ((2 ^ s : ℕ) : ℚ) - (p:ℚ) / ((2 ^ s : ℕ) : ℚ) / 2^53 := by
            ring
          rw [expand]
          linarith
      _ ≤ (rhedNat p (2 ^ s) : ℚ) * (2:ℚ) ^ s := by
          apply mul_le_mul_of_nonneg_right _ (by positivity)
          linarith

theorem val53_nonneg (p : ℕ) : 0 ≤ val53 p := by
  unfold val53
  positivity

theorem val53_le_pow (p : ℕ) : val53 p ≤ ((2 ^ natBits p : ℕ) : ℚ) := by
  unfold val53 round53
  split_ifs with hc
  · simp only
    rw [pow_zero, mul_one]
    rcases eq_or_ne p 0 with rfl | hp0
    · positivity
    · exact_mod_cast le_of_lt (natBits_correct p hp0).2
  · simp only
    obtain ⟨hb1, hb2⟩ := round53_bracket p hc
    set s := natBits p - 53 with hs
    have hm : rhedNat p (2 ^ s) ≤ 2 ^ 53 := by
      have hd : p / 2 ^ s < 2 ^ 53 := by
        rw [Nat.div_lt_iff_lt_mul (by positivity)]
        calc p < 2 ^ (53 + s) := hb2
          _ = 2 ^ 53 * 2 ^ s := by rw [pow_add]
      calc rhedNat p (2 ^ s) ≤ p / 2 ^ s + 1 := rhedNat_le_div_succ _ _
        _ ≤ 2 ^ 53 := by omega
    calc (rhedNat p (2 ^ s) : ℚ) * (2:ℚ) ^ s ≤
          ((2 ^ 53 : ℕ) : ℚ) * (2:ℚ) ^ s := by
          apply mul_le_mul_of_nonneg_right _ (by positivity)
          exact_mod_cast hm
      _ = ((2 ^ natBits p : ℕ) : ℚ) := by
          push_cast
          rw [show natBits p = 53 + s by omega, pow_add]
          norm_num

theorem pow_le_val53 (p : ℕ) (h : ¬ natBits p ≤ 53) :
    ((2 ^ (natBits p - 1) : ℕ) : ℚ) ≤ val53 p := by
  unfold val53 round53
  rw [if_neg h]
  simp only
  obtain ⟨hb1, hb2⟩ := round53_bracket p h
  set s := natBits p - 53 with hs
  have hm : 2 ^ 52 ≤ rhedNat p (2 ^ s) := by
    have hd : 2 ^ 52 ≤ p / 2 ^ s := by
      rw [Nat.le_div_iff_mul_le (by positivity)]
      calc 2 ^ 52 * 2 ^ s = 2 ^ (52 + s) := by rw [pow_add]
        _ ≤ p := hb1
    calc (2:ℕ) ^ 52 ≤ p / 2 ^ s := hd
      _ ≤ rhedNat p (2 ^ s) := rhedNat_ge_div _ _
  calc ((2 ^ (natBits p - 1) : ℕ) : ℚ) = ((2 ^ 52 : ℕ) : ℚ) * (2:ℚ) ^ s := by
        push_cast
        rw [show natBits p - 1 = 52 + s by omega, pow_add]
        norm_num
    _ ≤ (rhedNat p (2 ^ s) : ℚ) * (2:ℚ) ^ s := by
        apply mul_le_mul_of_nonneg_right _ (by positivity)
        exact_mod_cast hm

theorem round53_mono {p q : ℕ} (h : p ≤ q) : val53 p ≤ val53 q := by
  by_cases hp : natBits p ≤ 53
  · by_cases hq : natBits q ≤ 53
    · unfold val53 round53
      rw [if_pos hp, if_pos hq]
      simpa using h
    · have h1 : val53 p ≤ ((2 ^ natBits p : ℕ) : ℚ) := val53_le_pow p
      have h2 : ((2 ^ (natBits q - 1) : ℕ) : ℚ) ≤ val53 q := pow_le_val53 q hq
      have h3 : (2:ℕ) ^ natBits p ≤ 2 ^ (natBits q - 1) :=
        Nat.pow_le_pow_right (by norm_num) (by omega)
      calc val53 p ≤ ((2 ^ natBits p : ℕ) : ℚ) := h1
        _ ≤ ((2 ^ (natBits q - 1) : ℕ) : ℚ) := by exact_mod_cast h3
        _ ≤ val53 q := h2
  · have hq : ¬ natBits q ≤ 53 := by
      intro hc
      exact hp (le_trans (natBits_mono h) hc)
    by_cases hss : natBits p = natBits q
    · unfold val53 round53
      rw [if_neg hp, if_neg hq]
      simp only
      rw [hss]
      apply mul_le_mul_of_nonneg_right _ (by positivity)
      exact_mod_cast rhedNat_mono_left (by positivity) h
    · have hlt : natBits p < natBits q := by
        have := natBits_mono h
        omega
      have h1 : val53 p ≤ ((2 ^ natBits p : ℕ) : ℚ) := val53_le_pow p
      have h2 : ((2 ^ (natBits q - 1) : ℕ) : ℚ) ≤ val53 q := pow_le_val53 q hq
      have h3 : (2:ℕ) ^ natBits p ≤ 2 ^ (natBits q - 1) :=
        Nat.pow_le_pow_right (by norm_num) (by omega)
      calc val53 p ≤ ((2 ^ natBits p : ℕ) : ℚ) := h1
        _ ≤ ((2 ^ (natBits q - 1) : ℕ) : ℚ) := by exact_mod_cast h3
        _ ≤ val53 q := h2

-- ### `mulTrunc`

theorem mulTrunc_eq_floor (i : ℕ) (inc : ℕ × ℤ) :
    mulTrunc i inc = ⌊val53 (i * inc.1) * (2:ℚ) ^ inc.2⌋₊ := by
  unfold mulTrunc val53
  set m := (round53 (i * inc.1)).1 with hm
  set s := (round53 (i * inc.1)).2 with hs
  have hval : (m : ℚ) * (2:ℚ) ^ s * (2:ℚ) ^ inc.2 =
      (m : ℚ) * (2:ℚ) ^ (inc.2 + (s:ℤ)) := by
    rw [← zpow_natCast (2:ℚ) s, mul_assoc,
      ← zpow_add₀ (by norm_num : (2:ℚ) ≠ 0), add_comm ((s:ℕ):ℤ) inc.2]
  split_ifs with hc
  · rw [hval]
    have : (2:ℚ) ^ (inc.2 + (s:ℤ)) = (((2:ℕ) ^ (inc.2 + (s:ℤ)).toNat : ℕ) : ℚ) := by
      rw [← zpow_toNat_cast _ hc]
    rw [this]
    rw [show (m : ℚ) * (((2:ℕ) ^ (inc.2 + (s:ℤ)).toNat : ℕ) : ℚ) =
      ((m * 2 ^ (inc.2 + (s:ℤ)).toNat : ℕ) : ℚ) by push_cast; ring]
    rw [Nat.floor_natCast]
  · rw [hval]
    push_neg at hc
    have hneg : 0 ≤ -(inc.2 + (s:ℤ)) := by omega
    have : (2:ℚ) ^ (inc.2 + (s:ℤ)) =
        ((((2:ℕ) ^ (-(inc.2 + (s:ℤ))).toNat : ℕ) : ℚ))⁻¹ := by
      rw [← zpow_toNat_cast _ hneg, ← zpow_neg, neg_neg]
    rw [this, ← div_eq_mul_inv, Nat.floor_div_nat, Nat.floor_natCast]

theorem mulTrunc_mono (inc : ℕ × ℤ) (i : ℕ) :
    mulTrunc i inc ≤ mulTrunc (i + 1) inc := by
  rw [mulTrunc_eq_floor, mulTrunc_eq_floor]
  apply Nat.floor_mono
  apply mul_le_mul_of_nonneg_right _ (by positivity)
  exact round53_mono (Nat.mul_le_mul_right inc.1 (Nat.le_succ i))

theorem dyadicVal_cpi_le (n : ℕ) (hn : n ≠ 0) :
    dyadicVal (campaignProgressIncrement n) ≤ (40:ℚ)/n * (1 + 1/2^53) := by
  unfold campaignProgressIncrement
  rw [if_neg hn]
  have := (f64OfRat_spec 40 n (by norm_num) hn).2
  exact_mod_cast this

theorem dyadicVal_cpi_ge (n : ℕ) (hn : n ≠ 0) :
    (40:ℚ)/n * (1 - 1/2^53) ≤ dyadicVal (campaignProgressIncrement n) := by
  unfold campaignProgressIncrement
  rw [if_neg hn]
  have := (f64OfRat_spec 40 n (by norm_num) hn).1
  exact_mod_cast this

theorem mulTrunc_val_le (n i : ℕ) (hn : n ≠ 0) :
    (mulTrunc i (campaignProgressIncrement n) : ℚ) ≤
      (i:ℚ) * ((40:ℚ)/n) * (1 + 1/2^53)^2 := by
  rw [mulTrunc_eq_floor]
  set inc := campaignProgressIncrement n with hinc
  have h1 : val53 (i * inc.1) ≤ ((i * inc.1 : ℕ) : ℚ) * (1 + 1/2^53) :=
    round53_le _
  have h2 : dyadicVal inc ≤ (40:ℚ)/n * (1 + 1/2^53) := dyadicVal_cpi_le n hn
  have hpos : (0:ℚ) < (2:ℚ) ^ inc.2 := by positivity
  calc (⌊val53 (i * inc.1) * (2:ℚ) ^ inc.2⌋₊ : ℚ) ≤
        val53 (i * inc.1) * (2:ℚ) ^ inc.2 := by
        apply Nat.floor_le
        exact mul_nonneg (val53_nonneg _) (le_of_lt hpos)
    _ ≤ ((i * inc.1 : ℕ) : ℚ) * (1 + 1/2^53) * (2:ℚ) ^ inc.2 := by
        apply mul_le_mul_of_nonneg_right h1 (le_of_lt hpos)
    _ = (i:ℚ) * dyadicVal inc * (1 + 1/2^53) := by
        unfold dyadicVal
        push_cast
        ring
    _ ≤ (i:ℚ) * ((40:ℚ)/n * (1 + 1/2^53)) * (1 + 1/2^53) := by
        apply mul_le_mul_of_nonneg_right _ (by norm_num)
        apply mul_le_mul_of_nonneg_left h2 (by positivity)
    _ = (i:ℚ) * ((40:ℚ)/n) * (1 + 1/2^53)^2 := by ring

theorem mulTrunc_val_ge (n i : ℕ) (hn : n ≠ 0) :
    (i:ℚ) * ((40:ℚ)/n) * (1 - 1/2^53)^2 - 1 ≤
      (mulTrunc i (campaignProgressIncrement n) : ℚ) := by
  rw [mulTrunc_eq_floor]
  set inc := campaignProgressIncrement n with hinc
  have h1 : ((i * inc.1 : ℕ) : ℚ) * (1 - 1/2^53) ≤ val53 (i * inc.1) :=
    round53_ge _
  have h2 : (40:ℚ)/n * (1 - 1/2^53) ≤ dyadicVal inc := dyadicVal_cpi_ge n hn
  have hpos : (0:ℚ) < (2:ℚ) ^ inc.2 := by positivity
  have hchain : (i:ℚ) * ((40:ℚ)/n) * (1 - 1/2^53)^2 ≤
      val53 (i * inc.1) * (2:ℚ) ^ inc.2 := by
    calc (i:ℚ) * ((40:ℚ)/n) * (1 - 1/2^53)^2 =
          (i:ℚ) * ((40:ℚ)/n * (1 - 1/2^53)) * (1 - 1/2^53) := by ring
      _ ≤ (i:ℚ) * dyadicVal inc * (1 - 1/2^53) := by
          apply mul_le_mul_of_nonneg_right _ (by norm_num)
          apply mul_le_mul_of_nonneg_left h2 (by positivity)
      _ = ((i * inc.1 : ℕ) : ℚ) * (1 - 1/2^53) * (2:ℚ) ^ inc.2 := by
          unfold dyadicVal
          push_cast
          ring
      _ ≤ val53 (i * inc.1) * (2:ℚ) ^ inc.2 := by
          apply mul_le_mul_of_nonneg_right h1 (le_of_lt hpos)
  have hfl := Nat.lt_floor_add_one (val53 (i * inc.1) * (2:ℚ) ^ inc.2)
  linarith

theorem mulTrunc_le_40 (n i : ℕ) (hi : i < n) :
    mulTrunc i (campaignProgressIncrement n) ≤ 40 := by
  have hn : n ≠ 0 := by omega
  have hn0 : (0:ℚ) < (n:ℚ) := by exact_mod_cast Nat.pos_of_ne_zero hn
  have hub := mulTrunc_val_le n i hn
  have hfrac : (i:ℚ) * ((40:ℚ)/n) ≤ 40 := by
    rw [mul_div_assoc']
    rw [div_le_iff hn0]
    have : (i:ℚ) * 40 ≤ (n:ℚ) * 40 := by
      apply mul_le_mul_of_nonneg_right _ (by norm_num)
      exact_mod_cast le_of_lt hi
    linarith
  have hframe : (i:ℚ) * ((40:ℚ)/n) * (1 + 1/2^53)^2 < 41 := by
    have hnn : (0:ℚ) ≤ (i:ℚ) * ((40:ℚ)/n) := by positivity
    nlinarith
  have : (mulTrunc i (campaignProgressIncrement n) : ℚ) < 41 := lt_of_le_of_lt hub hframe
  exact_mod_cast Nat.lt_succ_iff.mp (by exact_mod_cast this)

theorem mulTrunc_near (n i : ℕ) (hi : i < n) :
    (i * 40) / n - 1 ≤ mulTrunc i (campaignProgressIncrement n) ∧
    mulTrunc i (campaignProgressIncrement n) ≤ (i * 40) / n + 1 := by
  have hn : n ≠ 0 := by omega
  have hn0 : (0:ℚ) < (n:ℚ) := by exact_mod_cast Nat.pos_of_ne_zero hn
  set x : ℚ := (i:ℚ) * ((40:ℚ)/n) with hx
  have hx0 : (0:ℚ) ≤ x := by positivity
  have hx40 : x ≤ 40 := by
    rw [hx, mul_div_assoc', div_le_iff hn0]
    have : (i:ℚ) * 40 ≤ (n:ℚ) * 40 := by
      apply mul_le_mul_of_nonneg_right _ (by norm_num)
      exact_mod_cast le_of_lt hi
    linarith
  have hfloor : ⌊x⌋₊ = (i * 40) / n := by
    have : x = ((i * 40 : ℕ) : ℚ) / ((n : ℕ) : ℚ) := by
      rw [hx]
      push_cast
      ring
    rw [this, Nat.floor_div_nat, Nat.floor_natCast]
  constructor
  · -- lower: mulTrunc ≥ x(1-δ)² - 1 ≥ x - 2 hence ≥ ⌊x⌋ - 1... need care
    have hlb := mulTrunc_val_ge n i hn
    have herr : x * (1 - 1/2^53)^2 ≥ x - 1/2^46 := by
      nlinarith
    have hq : (⌊x⌋₊ : ℚ) - 2 < (mulTrunc i (campaignProgressIncrement n) : ℚ) := by
      have hfx : (⌊x⌋₊ : ℚ) ≤ x := Nat.floor_le hx0
      have hsmall : (1:ℚ)/2^46 < 1 := by norm_num
      linarith
    rw [hfloor] at hq
    have : ((i * 40) / n : ℕ) < mulTrunc i (campaignProgressIncrement n) + 2 := by
      by_contra hcon
      push_neg at hcon
      have : (mulTrunc i (campaignProgressIncrement n) + 2 : ℚ) ≤ (((i * 40) / n : ℕ) : ℚ) := by
        exact_mod_cast hcon
      linarith
    omega
  · have hub := mulTrunc_val_le n i hn
    have herr : x * (1 + 1/2^53)^2 ≤ x + 1/2^46 := by
      nlinarith
    have hlt : (mulTrunc i (campaignProgressIncrement n) : ℚ) < (⌊x⌋₊ : ℚ) + 2 := by
      have hfx : x < (⌊x⌋₊ : ℚ) + 1 := Nat.lt_floor_add_one x
      have hsmall : (1:ℚ)/2^46 < 1 := by norm_num
      linarith
    rw [hfloor] at hlt
    have : mulTrunc i (campaignProgressIncrement n) < ((i * 40) / n : ℕ) + 2 := by
      exact_mod_cast hlt
    omega

-- ### `currentProgress`

theorem currentProgress_zero (n : ℕ) : currentProgress n 0 = 40 := by
  unfold currentProgress mulTrunc
  simp [round53, natBits, bitlenAux]

theorem currentProgress_ge (n i : ℕ) : 40 ≤ currentProgress n i := by
  unfold currentProgress
  exact Nat.le_add_right 40 _

theorem currentProgress_mono (n i : ℕ) :
    currentProgress n i ≤ currentProgress n (i + 1) := by
  unfold currentProgress
  exact Nat.add_le_add_left (mulTrunc_mono _ i) 40

theorem currentProgress_le (n i : ℕ) (h : i < n) : currentProgress n i ≤ 80 := by
  have := mulTrunc_le_40 n i h
  unfold currentProgress
  omega

theorem currentProgress_near (n i : ℕ) (h : i < n) :
    40 + (i * 40) / n - 1 ≤ currentProgress n i ∧
    currentProgress n i ≤ 40 + (i * 40) / n + 1 := by
  obtain ⟨h1, h2⟩ := mulTrunc_near n i h
  unfold currentProgress
  omega

theorem processingUpdates_length (ea : ℕ → ℚ) (fl : List Json) :
    (processingUpdates ea fl).length = fl.length := by
  unfold processingUpdates
  simp

theorem processingUpdates_getElem? (ea : ℕ → ℚ) (fl : List Json) (i : ℕ)
    (h : i < fl.length) :
    (processingUpdates ea fl)[i]? =
      some (processingUpdate (ea i) fl.length i (fl.getD i Json.null)) := by
  unfold processingUpdates
  rw [List.getElem?_map, List.getElem?_range h]
  rfl

theorem mem_processingUpdates (ea : ℕ → ℚ) (fl : List Json)
    (u : ProgressUpdate) (hu : u ∈ processingUpdates ea fl) :
    ∃ i, i < fl.length ∧
      u = processingUpdate (ea i) fl.length i (fl.getD i Json.null) := by
  unfold processingUpdates at hu
  simp only [List.mem_map, List.mem_range] at hu
  obtain ⟨i, hi, hui⟩ := hu
  exact ⟨i, hi, hui.symm⟩

theorem processingUpdates_progress_bounds (ea : ℕ → ℚ) (fl : List Json)
    (u : ProgressUpdate) (hu : u ∈ processingUpdates ea fl) :
    40 ≤ u.progress ∧ u.progress ≤ 80 := by
  obtain ⟨i, hi, rfl⟩ := mem_processingUpdates ea fl u hu
  exact ⟨currentProgress_ge _ _, currentProgress_le _ _ hi⟩

theorem chain'_processingUpdates (ea : ℕ → ℚ) (fl : List Json) :
    List.Chain' (fun a b => a.progress ≤ b.progress)
      (processingUpdates ea fl) := by
  unfold processingUpdates
  rw [List.chain'_map]
  cases hn : fl.length with
  | zero => simp
  | succ m =>
    rw [List.chain'_range_succ]
    intro i _
    exact currentProgress_mono _ i

/-- Any successful run with a data payload carries exactly the sorted
per-campaign rows computed from some fetched campaign array. -/
theorem finalReportData_inv (env : Env) (r : ReportRequest)
    (l : List ReportEntry)
    (h : finalReportData (generate_report env r) = some l) :
    ∃ campaigns : List Json,
      l = sortReportData
        ((campaigns.filter (campaignMatches r.newsletter_type)).filterMap
          (campaignEntry env.clickHttp r.tracking_urls)) := by
  simp only [generate_report] at h
  repeat' split at h
  all_goals simp only [finalReportData] at h
  all_goals simp at h
  exact ⟨_, h.symm⟩

/-- Characterization of a produced row: positive ad clicks and the CTR
formula of lines 667-671. -/
theorem campaignEntry_fields (ch : String → HttpOutcome) (tr : List String)
    (c : Json) (e : ReportEntry)
    (h : campaignEntry ch tr c = some e) :
    0 < e.total_clicks ∧
    e.ctr = (if 0 < e.unique_opens then
      ((e.total_clicks : ℚ) / (e.unique_opens : ℚ)) * 100 else 0) := by
  simp only [campaignEntry] at h
  repeat' split at h
  all_goals try exact Option.noConfusion h
  all_goals obtain rfl : _ = e := Option.some.inj h
  all_goals constructor
  all_goals simp_all

/-- C1.  Every row of a generated report satisfies the CTR invariant:
`ctr = 100 * total_clicks / unique_opens` when `unique_opens` is positive,
and `ctr = 0` exactly when `unique_opens = 0` (rows always have positive
ad clicks, so a positive denominator forces a positive CTR). -/
theorem c1_ctr_formula (env : Env) (r : ReportRequest)
    (l : List ReportEntry)
    (hl : finalReportData (generate_report env r) = some l) :
    ∀ e ∈ l,
      (0 < e.unique_opens →
        e.ctr = 100 * (e.total_clicks : ℚ) / (e.unique_opens : ℚ)) ∧
      (e.ctr = 0 ↔ e.unique_opens = 0) := by
  obtain ⟨campaigns, rfl⟩ := finalReportData_inv env r l hl
  intro e he
  have he' : e ∈ (campaigns.filter (campaignMatches r.newsletter_type)).filterMap
      (campaignEntry env.clickHttp r.tracking_urls) := by
    unfold sortReportData at he
    exact (List.perm_insertionSort reportDateLe _).mem_iff.mp he
  obtain ⟨c, _, hce⟩ := List.mem_filterMap.mp he'
  obtain ⟨htc, hctr⟩ := campaignEntry_fields env.clickHttp r.tracking_urls c e hce
  constructor
  · intro hu
    rw [hctr, if_pos hu]
    ring
  · constructor
    · intro h0
      by_contra hne
      have hu : 0 < e.unique_opens := Nat.pos_of_ne_zero hne
      rw [hctr, if_pos hu] at h0
      have huq : ((e.unique_opens : ℚ)) ≠ 0 := Nat.cast_ne_zero.mpr hne
      have htcq : ((e.total_clicks : ℚ)) ≠ 0 :=
        Nat.cast_ne_zero.mpr (Nat.pos_iff_ne_zero.mp htc)
      have : ((e.total_clicks : ℚ) / (e.unique_opens : ℚ)) * 100 ≠ 0 := by
        apply mul_ne_zero _ (by norm_num)
        exact div_ne_zero htcq huq
      exact this h0
    · intro h0
      rw [hctr, if_neg (by omega)]

theorem c1_ctr_formula_witness :
    (0 < (ReportEntry.mk "2024-01-15" 200 250 1000 20
        (((20:ℕ) : ℚ) / ((200:ℕ) : ℚ) * 100)).unique_opens →
      (ReportEntry.mk "2024-01-15" 200 250 1000 20
        (((20:ℕ) : ℚ) / ((200:ℕ) : ℚ) * 100)).ctr =
        100 * ((ReportEntry.mk "2024-01-15" 200 250 1000 20
          (((20:ℕ) : ℚ) / ((200:ℕ) : ℚ) * 100)).total_clicks : ℚ) /
          ((ReportEntry.mk "2024-01-15" 200 250 1000 20
            (((20:ℕ) : ℚ) / ((200:ℕ) : ℚ) * 100)).unique_opens : ℚ)) ∧
    ((ReportEntry.mk "2024-01-15" 200 250 1000 20
        (((20:ℕ) : ℚ) / ((200:ℕ) : ℚ) * 100)).ctr = 0 ↔
      (ReportEntry.mk "2024-01-15" 200 250 1000 20
        (((20:ℕ) : ℚ) / ((200:ℕ) : ℚ) * 100)).unique_opens = 0) :=
  c1_ctr_formula envS1 reqS1
    [ReportEntry.mk "2024-01-15" 200 250 1000 20
      (((20:ℕ) : ℚ) / ((200:ℕ) : ℚ) * 100)] rfl
    (ReportEntry.mk "2024-01-15" 200 250 1000 20
      (((20:ℕ) : ℚ) / ((200:ℕ) : ℚ) * 100))
    (List.mem_singleton.mpr rfl)

/-- C2.  The `report_data` rows of every successful generation are sorted
ascending by send date under lexicographic string comparison. -/
theorem c2_report_data_sorted (env : Env) (r : ReportRequest)
    (l : List ReportEntry)
    (hl : finalReportData (generate_report env r) = some l) :
    l.Sorted reportDateLe := by
  obtain ⟨campaigns, rfl⟩ := finalReportData_inv env r l hl
  unfold sortReportData
  exact List.sorted_insertionSort reportDateLe _

theorem c2_report_data_sorted_witness :
    List.Sorted reportDateLe
      [ReportEntry.mk "2024-01-15" 0 250 1000 20 0] :=
  c2_report_data_sorted envNoOpens reqS1
    [ReportEntry.mk "2024-01-15" 0 250 1000 20 0] (by decide)

/-- C8.  When the loaded settings have an empty API credential or an
empty audience id (and the tracking URLs passed validation, which
precedes the settings load), the run returns the structured failure with
message `Mailchimp API settings not configured` and a progress history
holding exactly the `Initializing` update at progress 0. -/
theorem c8_unconfigured (env : Env) (r : ReportRequest) (st : Settings)
    (hv : validate_tracking_urls env.urlParseOk r.tracking_urls =
      Except.ok ())
    (hs : env.loadSettings = Except.ok st)
    (hempty : st.mailchimp_api_key = "" ∨ st.mailchimp_audience_id = "") :
    generate_report env r =
      ⟨Except.ok ⟨false, "Mailchimp API settings not configured", none,
          [initializingUpdate]⟩,
       [initializingUpdate], [], none⟩ ∧
    initializingUpdate.stage = "Initializing" ∧
    initializingUpdate.progress = 0 := by
  refine ⟨?_, rfl, rfl⟩
  simp only [generate_report, hv, hs]
  rw [if_pos hempty]

theorem c8_unconfigured_witness :
    generate_report envUnconfigured reqS1 =
      ⟨Except.ok ⟨false, "Mailchimp API settings not configured", none,
          [initializingUpdate]⟩,
       [initializingUpdate], [], none⟩ :=
  (c8_unconfigured envUnconfigured reqS1 ⟨"", "6732b2b110", [], "/dl"⟩
    rfl rfl (Or.inl rfl)).1

/-- Shape of the progress history once the processing loop is reached:
the five fixed leading updates, the per-campaign updates, then whatever
the remaining stages add. -/
theorem generate_report_updates_shape (env : Env) (r : ReportRequest)
    (st : Settings) (body : Json) (campaigns : List Json) (d : Date)
    (hv : validate_tracking_urls env.urlParseOk r.tracking_urls = Except.ok ())
    (hs : env.loadSettings = Except.ok st)
    (hk : ¬(st.mailchimp_api_key = "" ∨ st.mailchimp_audience_id = ""))
    (hd : parseDateYMD r.date_range.end_date = some d)
    (hc : env.campaignsHttp = HttpOutcome.ok (some body))
    (ha : (body.get "campaigns").bind Json.asArr = some campaigns)
    (hvc : validate_campaign_data campaigns r.newsletter_type = Except.ok ()) :
    ∃ tail,
      (generate_report env r).updates =
        [initializingUpdate, connectingUpdate, fetchingUpdate,
         filteringUpdate campaigns.length,
         initialProcessingUpdate
           (campaigns.filter (campaignMatches r.newsletter_type)).length] ++
        processingUpdates env.elapsedAt
          (campaigns.filter (campaignMatches r.newsletter_type)) ++ tail := by
  simp only [generate_report, hv, hs, hd, hc, ha, hvc]
  rw [if_neg hk]
  split
  · exact ⟨[], by simp⟩
  · split
    · exact ⟨[finalizingUpdate, savingUpdate], by simp⟩
    · exact ⟨[finalizingUpdate, savingUpdate, completeUpdate], by simp⟩

set_option maxRecDepth 16000 in
set_option maxHeartbeats 4000000 in
/-- C6 counterexample.  With 154 matching campaigns, the update emitted
for index 77 carries progress 59, not the 60 given by the exact formula
`40 + (77 * 40) / 154`: the binary64 increment `40.0 / 154` rounds to a
value slightly below `40/154`, the product `77.0 * increment` evaluates
just below 20, and the `as u8` cast truncates it to 19. -/
theorem c6_counterexample :
    ((generate_report env154 reqS1).updates[5 + 77]?).map
        (fun u => (u.stage, u.progress)) =
      some ("ProcessingCampaigns", 59) ∧
    40 + (77 * 40) / 154 = 60 :=
  ⟨by decide, by decide⟩

/-- C6 (amended).  Once the processing loop is reached with a filtered set
of size `N`, the update emitted for 0-based campaign index `i < N` is the
sixth plus `i`-th of the history, carries stage `ProcessingCampaigns`, and
its progress is `40 + trunc(i * fl64(40/N))` computed in binary64
(`currentProgress`), which always lies within 1 of the exact integer
formula `40 + (i * 40) / N`. -/
theorem c6_processing_progress (env : Env) (r : ReportRequest)
    (st : Settings) (body : Json) (campaigns : List Json) (d : Date)
    (hv : validate_tracking_urls env.urlParseOk r.tracking_urls = Except.ok ())
    (hs : env.loadSettings = Except.ok st)
    (hk : ¬(st.mailchimp_api_key = "" ∨ st.mailchimp_audience_id = ""))
    (hd : parseDateYMD r.date_range.end_date = some d)
    (hc : env.campaignsHttp = HttpOutcome.ok (some body))
    (ha : (body.get "campaigns").bind Json.asArr = some campaigns)
    (hvc : validate_campaign_data campaigns r.newsletter_type = Except.ok ()) :
    ∀ i < (campaigns.filter (campaignMatches r.newsletter_type)).length,
      ((generate_report env r).updates[5 + i]?).map
          (fun u => (u.stage, u.progress)) =
        some ("ProcessingCampaigns",
          currentProgress
            (campaigns.filter (campaignMatches r.newsletter_type)).length i) ∧
      40 + (i * 40) /
          (campaigns.filter (campaignMatches r.newsletter_type)).length - 1 ≤
        currentProgress
          (campaigns.filter (campaignMatches r.newsletter_type)).length i ∧
      currentProgress
          (campaigns.filter (campaignMatches r.newsletter_type)).length i ≤
        40 + (i * 40) /
          (campaigns.filter (campaignMatches r.newsletter_type)).length + 1 := by
  intro i hi
  refine ⟨?_, (currentProgress_near _ i hi).1, (currentProgress_near _ i hi).2⟩
  obtain ⟨tail, hup⟩ :=
    generate_report_updates_shape env r st body campaigns d hv hs hk hd hc ha hvc
  rw [hup, List.append_assoc,
    List.getElem?_append_right (by simp : 5 ≤ 5 + i)]
  have hlen : i <
      (processingUpdates env.elapsedAt
        (campaigns.filter (campaignMatches r.newsletter_type))).length := by
    rw [processingUpdates_length]
    exact hi
  have hidx : 5 + i - 5 = i := by omega
  simp only [List.length_cons, List.length_nil, hidx]
  rw [List.getElem?_append, if_pos hlen, processingUpdates_getElem? _ _ i hi]
  simp [processingUpdate]

theorem c6_processing_progress_witness :
    ((generate_report envS1 reqS1).updates[5 + 0]?).map
        (fun u => (u.stage, u.progress)) =
      some ("ProcessingCampaigns", 40) ∧
    40 + (0 * 40) / 1 - 1 ≤ (40 : ℕ) ∧
    (40 : ℕ) ≤ 40 + (0 * 40) / 1 + 1 := by
  have h := c6_processing_progress envS1 reqS1
    ⟨"key-us21", "6732b2b110", ["HBCB"], "/dl"⟩ _ [sampleCampaign]
    ⟨2024, 1, 31⟩ rfl rfl (by decide) (by decide) rfl rfl rfl 0 (by decide)
  exact h

set_option maxHeartbeats 1000000 in
/-- C10.  The start date is never validated: once the tracking URLs pass
and the settings are configured, (i) the command result and the emitted
progress history are identical for any two start-date strings, (ii) with
a parseable end date the single campaign-list GET interpolates the
start-date string verbatim as `<start>T00:00:00Z` into the query, for
every start-date string, and (iii) only a malformed end date raises the
input error. -/
theorem c10_start_date_unchecked (env : Env) (r : ReportRequest)
    (st : Settings)
    (hv : validate_tracking_urls env.urlParseOk r.tracking_urls = Except.ok ())
    (hs : env.loadSettings = Except.ok st)
    (hk : ¬(st.mailchimp_api_key = "" ∨ st.mailchimp_audience_id = "")) :
    (∀ s₁ s₂ : String,
      (generate_report env (withStart r s₁)).result =
        (generate_report env (withStart r s₂)).result ∧
      (generate_report env (withStart r s₁)).updates =
        (generate_report env (withStart r s₂)).updates) ∧
    (∀ d : Date, parseDateYMD r.date_range.end_date = some d →
      ∀ s : String, (generate_report env (withStart r s)).fetchedUrls =
        [base_url st.mailchimp_api_key ++ "/campaigns?since_send_time=" ++
          (s ++ "T00:00:00Z") ++ "&before_send_time=" ++
          (formatDate d ++ "T23:59:59Z") ++ "&count=1000"]) ∧
    (parseDateYMD r.date_range.end_date = none →
      ∀ s : String, (generate_report env (withStart r s)).result =
        Except.error ("Failed to parse end date: " ++ endDateParseErrorText)) := by
  refine ⟨fun s₁ s₂ => ?_, fun d hd s => ?_, fun hn s => ?_⟩
  · simp only [generate_report, withStart, hv, hs]
    rw [if_neg hk, if_neg hk]
    repeat' split
    all_goals exact ⟨rfl, rfl⟩
  · simp only [generate_report, withStart, hv, hs, hd]
    rw [if_neg hk]
    repeat' split
    all_goals rfl
  · simp only [generate_report, withStart, hv, hs, hn]
    rw [if_neg hk]

theorem c10_start_date_unchecked_witness :
    (generate_report envS1 (withStart reqS1 "B0GUS")).result =
      (generate_report envS1 (withStart reqS1 "2024-01-01")).result ∧
    (generate_report envS1 (withStart reqS1 "B0GUS")).fetchedUrls =
      [base_url "key-us21" ++ "/campaigns?since_send_time=" ++
        ("B0GUS" ++ "T00:00:00Z") ++ "&before_send_time=" ++
        (formatDate ⟨2024, 1, 31⟩ ++ "T23:59:59Z") ++ "&count=1000"] :=
  ⟨((c10_start_date_unchecked envS1 reqS1
      ⟨"key-us21", "6732b2b110", ["HBCB"], "/dl"⟩
      rfl rfl (by decide)).1 "B0GUS" "2024-01-01").1,
   (c10_start_date_unchecked envS1 reqS1
      ⟨"key-us21", "6732b2b110", ["HBCB"], "/dl"⟩
      rfl rfl (by decide)).2.1 ⟨2024, 1, 31⟩ (by decide) "B0GUS"⟩

theorem chain'_loop_tail (ea : ℕ → ℚ) (fl : List Json)
    (tail : List ProgressUpdate)
    (htail : List.Chain' (fun a b => a.progress ≤ b.progress) tail)
    (hhead : ∀ y ∈ tail.head?, 80 ≤ y.progress) :
    List.Chain' (fun a b => a.progress ≤ b.progress)
      (processingUpdates ea fl ++ tail) ∧
    ∀ y ∈ (processingUpdates ea fl ++ tail).head?, 40 ≤ y.progress := by
  constructor
  · rw [List.chain'_append]
    refine ⟨chain'_processingUpdates ea fl, htail, ?_⟩
    intro x hx y hy
    have hb := processingUpdates_progress_bounds ea fl x (mem_of_getLast?_eq hx)
    have h80 := hhead y hy
    omega
  · intro y hy
    rw [List.head?_append] at hy
    rcases ho : (processingUpdates ea fl).head? with _ | u
    · rw [ho] at hy
      simp only [Option.or] at hy
      have h80 := hhead y hy
      omega
    · rw [ho] at hy
      simp only [Option.or, Option.mem_def, Option.some.injEq] at hy
      subst hy
      have hmem : u ∈ (processingUpdates ea fl).head? := by
        rw [ho]
        exact rfl
      have hb := processingUpdates_progress_bounds ea fl u
        (List.mem_of_mem_head? hmem)
      omega

theorem chain'_ip_loop_tail (ea : ℕ → ℚ) (fl : List Json)
    (tail : List ProgressUpdate)
    (htail : List.Chain' (fun a b => a.progress ≤ b.progress) tail)
    (hhead : ∀ y ∈ tail.head?, 80 ≤ y.progress) :
    List.Chain' (fun a b => a.progress ≤ b.progress)
      (initialProcessingUpdate fl.length ::
        (processingUpdates ea fl ++ tail)) := by
  obtain ⟨hc, hh⟩ := chain'_loop_tail ea fl tail htail hhead
  rw [List.chain'_cons']
  refine ⟨?_, hc⟩
  intro y hy
  have h40 := hh y hy
  simp only [initialProcessingUpdate]
  omega

theorem getLast?_ip_loop_tail_ne100 (ea : ℕ → ℚ) (fl : List Json)
    (tail : List ProgressUpdate) (x : ProgressUpdate)
    (htail : ∀ y ∈ tail, y.progress ≠ 100)
    (h : (initialProcessingUpdate fl.length ::
        (processingUpdates ea fl ++ tail)).getLast? = some x) :
    ¬x.progress = 100 := by
  have hx := mem_of_getLast?_eq h
  rcases List.mem_cons.mp hx with rfl | hmem
  · simp [initialProcessingUpdate]
  · rcases List.mem_append.mp hmem with hl | ht
    · have hb := (processingUpdates_progress_bounds ea fl x hl).2
      omega
    · exact htail x ht

theorem chain'_ip_loop (ea : ℕ → ℚ) (fl : List Json) :
    List.Chain' (fun a b => a.progress ≤ b.progress)
      (initialProcessingUpdate fl.length :: processingUpdates ea fl) := by
  have h := chain'_ip_loop_tail ea fl [] (by simp) (by simp)
  simpa using h

theorem getLast?_ip_loop_ne100 (ea : ℕ → ℚ) (fl : List Json)
    (x : ProgressUpdate)
    (h : (initialProcessingUpdate fl.length ::
        processingUpdates ea fl).getLast? = some x) :
    ¬x.progress = 100 := by
  apply getLast?_ip_loop_tail_ne100 ea fl [] x (by simp)
  simpa using h

theorem getLast?_loop_complete (a : ProgressUpdate)
    (L : List ProgressUpdate) :
    (a :: (L ++ [finalizingUpdate, savingUpdate,
      completeUpdate])).getLast? = some completeUpdate := by
  have hsh : a :: (L ++ [finalizingUpdate, savingUpdate, completeUpdate]) =
      (a :: (L ++ [finalizingUpdate, savingUpdate])) ++ [completeUpdate] := by
    simp
  rw [hsh, List.getLast?_concat]

set_option maxHeartbeats 1000000 in
/-- C7.  In every run, the emitted progress values are non-decreasing, and
the history ends at progress 100 exactly when the run returns a structured
response with `success = true` (fatal errors return no success flag, and
every failure path stops strictly below 100). -/
theorem c7_progress_monotone_complete (env : Env) (r : ReportRequest) :
    List.Chain' (fun a b => a.progress ≤ b.progress)
      (generate_report env r).updates ∧
    ((((generate_report env r).updates.getLast?).map (fun u => u.progress) =
        some 100) ↔
      resultSuccess (generate_report env r).result = some true) := by
  simp only [generate_report]
  repeat' split
  all_goals refine ⟨?_, ?_⟩
  all_goals
    try (simp [List.chain'_cons, resultSuccess, initializingUpdate,
      connectingUpdate, fetchingUpdate, filteringUpdate])
  · exact ⟨by simp [initialProcessingUpdate], chain'_ip_loop env.elapsedAt _⟩
  · intro x hx
    exact getLast?_ip_loop_ne100 env.elapsedAt _ x hx
  · refine ⟨by simp [initialProcessingUpdate], ?_⟩
    exact chain'_ip_loop_tail env.elapsedAt _ [finalizingUpdate, savingUpdate]
      (by simp [List.chain'_cons, finalizingUpdate, savingUpdate])
      (by simp [finalizingUpdate])
  · intro x hx
    refine getLast?_ip_loop_tail_ne100 env.elapsedAt _
      [finalizingUpdate, savingUpdate] x ?_ hx
    intro y hy
    rcases List.mem_cons.mp hy with rfl | hy2
    · simp [finalizingUpdate]
    · rcases List.mem_cons.mp hy2 with rfl | hy3
      · simp [savingUpdate]
      · simp at hy3
  · refine ⟨by simp [initialProcessingUpdate], ?_⟩
    exact chain'_ip_loop_tail env.elapsedAt _
      [finalizingUpdate, savingUpdate, completeUpdate]
      (by simp [List.chain'_cons, finalizingUpdate, savingUpdate,
        completeUpdate])
      (by simp [finalizingUpdate])
  · exact ⟨completeUpdate, getLast?_loop_complete _ _, rfl⟩
